import Mathlib

/-! autobrr: the qBittorrent action (internal/action/qbittorrent.go)

A shallow embedding of the four functions of the file

* `qbittorrent` (submission, lines 16-60),
* `qbittorrentCheckRulesCanDownload` (admission gate, lines 62-131),
* `checkTrackerStatus` (re-announce loop, lines 133-190),
* `findTrackerStatus` (tracker scan, lines 199-211),

followed by theorems about them.

Modelling conventions:

* Go `error` values are `Error` (a message); `nil` is `none`.
* Go `int` / `int64` values are `Int`.  The code only compares them, divides one
  by 1024 and counts up to 50, so no operation can overflow and unbounded
  integers behave as the machine ones do on every machine value.  Go's `/` on
  integers truncates toward zero: `Int.tdiv`.
* The remote qBittorrent instance is outside the program.  It is a parameter
  `Remote`: every method of `qbittorrent.Client` that goes over the network is a
  function of the history of events so far (all earlier remote calls and sleeps,
  oldest first), the receiver and the arguments.  Quantifying over `Remote`
  covers every behaviour of the remote side, time-dependent ones included.
* Every function threads the event trace: it takes the trace so far and returns
  its result together with the extended trace.  A remote call or a
  `time.Sleep` appends one event.  Logging is not modelled.
-/

namespace Autobrr

/-! ## Data model -/

/-- Go `error`: the message of a non-nil error. -/
abbrev Error := String

/-- Go `map[string]string`, as an association list with distinct keys. -/
abbrev Options := List (String × String)

/-- Assignment `m[k] = v` on a Go map: overwrite the entry of `k` or add one. -/
def Options.set (m : Options) (k v : String) : Options :=
  if m.any (fun p => p.1 == k) then
    m.map (fun p => if p.1 == k then (k, v) else p)
  else
    m ++ [(k, v)]

/-- Keys present in a map. -/
def Options.keys (m : Options) : List String := m.map Prod.fst

/-- Lookup `m[k]` with presence flag, as `Option`. -/
def Options.get (m : Options) (k : String) : Option String := m.lookup k

/-- Modelled from the spec: `qbittorrent.TrackerStatus` of pkg/qbittorrent (not under
src/) is an integer code; the values are those listed in the comment above
`findTrackerStatus` (0 disabled, 1 not contacted, 2 working, 3 updating, 4 not working). -/
abbrev TrackerStatus := Int

/-- Modelled from the spec: code 0, tracker is disabled (used for DHT, PeX, and LSD). -/
def TrackerStatusDisabled : TrackerStatus := 0
/-- Modelled from the spec: code 1, tracker has not been contacted yet. -/
def TrackerStatusNotContacted : TrackerStatus := 1
/-- Modelled from the spec: code 2, tracker has been contacted and is working. -/
def TrackerStatusOK : TrackerStatus := 2
/-- Modelled from the spec: code 3, tracker is updating. -/
def TrackerStatusUpdating : TrackerStatus := 3
/-- Modelled from the spec: code 4, tracker has been contacted but is not working. -/
def TrackerStatusNotWorking : TrackerStatus := 4

/-- Modelled from the spec: `qbittorrent.TorrentTracker` is declared in pkg/qbittorrent, not
under src/; this is the one field the code reads. -/
structure TorrentTracker where
  Status : TrackerStatus
  deriving DecidableEq, Repr

/-- Modelled from the spec: an element of the list returned by `GetTorrentsActiveDownloads`
(declared in pkg/qbittorrent); the code uses only the length of the list. -/
structure Torrent where
  Hash : String
  deriving DecidableEq, Repr

/-- Modelled from the spec: `qbittorrent.TransferInfo` is declared in pkg/qbittorrent; this
is the one field the code reads, the download rate in bytes per second. -/
structure TransferInfo where
  DlInfoSpeed : Int
  deriving DecidableEq, Repr

/-- Modelled from the spec: `domain.DownloadClientRules` is declared in internal/domain, not
under src/; the four fields are those the code reads (threshold in kilobytes per second). -/
structure DownloadClientRules where
  Enabled : Bool
  MaxActiveDownloads : Int
  IgnoreSlowTorrents : Bool
  DownloadSpeedThreshold : Int
  deriving DecidableEq, Repr

/-- Modelled from the spec: `domain.DownloadClientSettings` (internal/domain), the field the
code reads. -/
structure DownloadClientSettings where
  Rules : DownloadClientRules
  deriving DecidableEq, Repr

/-- Modelled from the spec: `domain.DownloadClient` (internal/domain), the fields the code
reads. -/
structure DownloadClient where
  Name : String
  Host : String
  Port : Int
  Username : String
  Password : String
  SSL : Bool
  Settings : DownloadClientSettings
  deriving DecidableEq, Repr

/-- Modelled from the spec: `domain.Action` (internal/domain), the fields the code reads. -/
structure Action where
  Name : String
  ClientID : Int
  Paused : Bool
  SavePath : String
  Category : String
  Tags : String
  LimitUploadSpeed : Int
  LimitDownloadSpeed : Int
  IgnoreRules : Bool
  deriving DecidableEq, Repr

/-- Modelled from the spec: `qbittorrent.Settings` (pkg/qbittorrent), the fields the code
fills in. -/
structure Settings where
  Hostname : String
  Port : Nat
  Username : String
  Password : String
  SSL : Bool
  deriving DecidableEq, Repr

/-- Modelled from the spec: the client handle `*qbittorrent.Client` (pkg/qbittorrent); a nil
handle is `none`. -/
structure Client where
  settings : Settings
  Name : String
  deriving DecidableEq, Repr

/-- Modelled from the spec: the constructor `qbittorrent.NewClient` (pkg/qbittorrent); the
name is filled in by the caller. -/
def NewClient (s : Settings) : Client := { settings := s, Name := "" }

/-- Conversion `uint(client.Port)` of a Go int on a 64-bit platform. -/
def toUint (i : Int) : Nat := (i % 2 ^ 64).toNat

/-- One observable step: a remote call (with its arguments) or a sleep (milliseconds). -/
inductive Event where
  | Login
  | GetTorrentsActiveDownloads
  | GetTransferInfo
  | AddTorrentFromFile (file : String) (options : Options)
  | GetTorrentTrackers (hash : String)
  | ReAnnounceTorrents (hashes : List String)
  | DeleteTorrents (hashes : List String) (deleteFiles : Bool)
  | Sleep (ms : Nat)
  deriving DecidableEq, Repr

/-- The event trace, oldest event first. -/
abbrev Trace := List Event

/-- Modelled from the spec: the remote side, taken as a parameter.  It gives what each
network method of `qbittorrent.Client` (section 6 of the specification) answers, given the
history before the call, the receiver and the arguments. -/
structure Remote where
  Login : Trace → Client → Option Error
  GetTorrentsActiveDownloads : Trace → Client → Except Error (List Torrent)
  GetTransferInfo : Trace → Client → Except Error TransferInfo
  AddTorrentFromFile : Trace → Client → String → Options → Option Error
  GetTorrentTrackers : Trace → Client → String → Except Error (List TorrentTracker)
  ReAnnounceTorrents : Trace → Client → List String → Option Error
  DeleteTorrents : Trace → Client → List String → Bool → Option Error

/-- Modelled from the spec: the client lookup service, taken as a parameter; `FindByID`
returns a client pointer and an error. -/
structure ClientService where
  FindByID : Int → Option DownloadClient × Option Error

/-- Modelled from the spec: the receiver `service` of the two methods (declared in another
file of the package); the code reads its field `clientSvc`. -/
structure service where
  clientSvc : ClientService

/-! ## Constants -/

/-- Line 13. -/
def ReannounceMaxAttempts : Nat := 50
/-- Line 14. -/
def ReannounceInterval : Nat := 7000

/-- Unit `time.Millisecond`, durations being counted in milliseconds. -/
def Millisecond : Nat := 1
/-- Unit `time.Second`. -/
def Second : Nat := 1000 * Millisecond

/-- Go `strconv.FormatInt(i, base)`, for the bases 2 to 16. -/
def FormatInt (i : Int) (base : Nat) : String :=
  if i < 0 then "-" ++ String.mk (Nat.toDigits base i.natAbs)
  else String.mk (Nat.toDigits base i.natAbs)

/-! ## findTrackerStatus (lines 199-211) -/

/-- Scan of the tracker list: skip disabled entries, succeed at the first working one. -/
def findTrackerStatus : List TorrentTracker → Bool
  | [] => false
  | item :: rest =>
    if item.Status = TrackerStatusDisabled then
      findTrackerStatus rest
    else if item.Status = TrackerStatusOK then
      true
    else
      findTrackerStatus rest

/-! ## checkTrackerStatus (lines 133-190) -/

/-- How the `for` loop of lines 140-173 ends: by a `return` inside the body, or by its
condition becoming false, with the values of the two local variables. -/
inductive LoopExit where
  | returned (err : Option Error)
  | finished (announceOK : Bool) (attempts : Nat)
  deriving DecidableEq, Repr

/-- The loop of lines 140-173, from the given values of `announceOK` and `attempts`. -/
def checkTrackerStatusLoop (R : Remote) (qb : Client) (hash : String)
    (announceOK : Bool) (attempts : Nat) (tr : Trace) : LoopExit × Trace :=
  if attempts < ReannounceMaxAttempts then
    match R.GetTorrentTrackers tr qb hash with
    | .error err => (.returned (some err), tr ++ [.GetTorrentTrackers hash])
    | .ok trackers =>
      let tr1 := tr ++ [.GetTorrentTrackers hash]
      if findTrackerStatus trackers then
        -- announceOK = true; return nil
        (.returned none, tr1)
      else
        match R.ReAnnounceTorrents tr1 qb [hash] with
        | some err => (.returned (some err), tr1 ++ [.ReAnnounceTorrents [hash]])
        | none =>
          let tr2 := tr1 ++ [.ReAnnounceTorrents [hash]]
          let tr3 := tr2 ++ [.Sleep (ReannounceInterval * Millisecond)]
          checkTrackerStatusLoop R qb hash announceOK (attempts + 1) tr3
  else
    (.finished announceOK attempts, tr)
termination_by ReannounceMaxAttempts - attempts
decreasing_by
  simp only [ReannounceMaxAttempts] at *
  omega

/-- The function `checkTrackerStatus`. -/
def checkTrackerStatus (R : Remote) (qb : Client) (hash : String) (tr : Trace) :
    Option Error × Trace :=
  let announceOK := false
  let attempts := 0
  let tr0 := tr ++ [.Sleep (6 * Second)]
  match checkTrackerStatusLoop R qb hash announceOK attempts tr0 with
  | (.returned err, tr1) => (err, tr1)
  | (.finished announceOK _, tr1) =>
    let tr2 := tr1 ++ [.Sleep (30 * Second)]
    if !announceOK then
      match R.DeleteTorrents tr2 qb [hash] false with
      | some err => (some err, tr2 ++ [.DeleteTorrents [hash] false])
      | none => (none, tr2 ++ [.DeleteTorrents [hash] false])
    else
      (none, tr2)

/-! ## qbittorrent (lines 16-60) -/

/-- The option map built in lines 19-39. -/
def qbittorrentOptions (action : Action) : Options :=
  let options : Options := []
  let options := if action.Paused then options.set "paused" "true" else options
  let options :=
    if action.SavePath ≠ "" then
      (options.set "savepath" action.SavePath).set "autoTMM" "false"
    else options
  let options := if action.Category ≠ "" then options.set "category" action.Category else options
  let options := if action.Tags ≠ "" then options.set "tags" action.Tags else options
  let options :=
    if action.LimitUploadSpeed > 0 then
      options.set "upLimit" (FormatInt action.LimitUploadSpeed 10)
    else options
  let options :=
    if action.LimitDownloadSpeed > 0 then
      options.set "dlLimit" (FormatInt action.LimitDownloadSpeed 10)
    else options
  options

/-- The method `qbittorrent`. -/
def qbittorrent (R : Remote) (_s : service) (qbt : Client) (action : Action)
    (torrentFile : String) (hash : String) (tr : Trace) : Option Error × Trace :=
  let options := qbittorrentOptions action
  let tr1 := tr ++ [.AddTorrentFromFile torrentFile options]
  match R.AddTorrentFromFile tr qbt torrentFile options with
  | some err => (some err, tr1)
  | none =>
    if !action.Paused && hash ≠ "" then
      match checkTrackerStatus R qbt hash tr1 with
      | (some err, tr2) => (some err, tr2)
      | (none, tr2) => (none, tr2)
    else
      (none, tr1)

/-! ## qbittorrentCheckRulesCanDownload (lines 62-131) -/

/-- The method `qbittorrentCheckRulesCanDownload`: the triple it returns, and the trace. -/
def qbittorrentCheckRulesCanDownload (R : Remote) (s : service) (action : Action)
    (tr : Trace) : (Bool × Option Client × Option Error) × Trace :=
  match s.clientSvc.FindByID action.ClientID with
  | (_, some err) => ((false, none, some err), tr)
  | (none, none) => ((false, none, none), tr)
  | (some client, none) =>
    let qbtSettings : Settings :=
      { Hostname := client.Host
        Port := toUint client.Port
        Username := client.Username
        Password := client.Password
        SSL := client.SSL }
    let qbt : Client := { NewClient qbtSettings with Name := client.Name }
    let tr1 := tr ++ [.Login]
    match R.Login tr qbt with
    | some err => ((false, none, some err), tr1)
    | none =>
      if client.Settings.Rules.Enabled && !action.IgnoreRules then
        let tr2 := tr1 ++ [.GetTorrentsActiveDownloads]
        match R.GetTorrentsActiveDownloads tr1 qbt with
        | .error err => ((false, none, some err), tr2)
        | .ok activeDownloads =>
          if client.Settings.Rules.MaxActiveDownloads > 0 then
            if (activeDownloads.length : Int) ≥ client.Settings.Rules.MaxActiveDownloads then
              if client.Settings.Rules.IgnoreSlowTorrents then
                let tr3 := tr2 ++ [.GetTransferInfo]
                match R.GetTransferInfo tr2 qbt with
                | .error err => ((false, none, some err), tr3)
                | .ok info =>
                  if info.DlInfoSpeed.tdiv 1024 ≥ client.Settings.Rules.DownloadSpeedThreshold then
                    ((false, none, none), tr3)
                  else
                    ((true, some qbt, none), tr3)
              else
                ((false, none, none), tr2)
            else
              ((true, some qbt, none), tr2)
          else
            ((true, some qbt, none), tr2)
      else
        ((true, some qbt, none), tr1)

/-! ## Names used in the statements -/

/-- The handle that `qbittorrentCheckRulesCanDownload` builds in lines 76-85 for a client. -/
def handleOf (client : DownloadClient) : Client :=
  { NewClient
      { Hostname := client.Host
        Port := toUint client.Port
        Username := client.Username
        Password := client.Password
        SSL := client.SSL } with Name := client.Name }

/-- The remote reads of the admission gate. -/
def Event.isRemoteRead : Event → Bool
  | .GetTorrentsActiveDownloads => true
  | .GetTransferInfo => true
  | _ => false

/-- The three decisions of the gate, as the triples the code returns. -/
def Admit (qbt : Client) : Bool × Option Client × Option Error := (true, some qbt, none)
/-- Decision Defer: `return false, nil, nil`. -/
def Defer : Bool × Option Client × Option Error := (false, none, none)
/-- Decision Error: `return false, nil, err`. -/
def Fail (e : Error) : Bool × Option Client × Option Error := (false, none, some e)

/-- The submission call. -/
def Event.isSubmission : Event → Bool
  | .AddTorrentFromFile _ _ => true
  | _ => false

/-- The tracker-status fetch. -/
def Event.isFetch : Event → Bool
  | .GetTorrentTrackers _ => true
  | _ => false

/-- The re-announce call. -/
def Event.isReannounce : Event → Bool
  | .ReAnnounceTorrents _ => true
  | _ => false

/-- The delete call. -/
def Event.isDelete : Event → Bool
  | .DeleteTorrents _ _ => true
  | _ => false

/-- The sleep. -/
def Event.isSleep : Event → Bool
  | .Sleep _ => true
  | _ => false

/-- The steps of the convergence loop: tracker-status fetch, re-announce, delete, sleep. -/
def Event.isConvergence (e : Event) : Bool :=
  e.isFetch || e.isReannounce || e.isDelete || e.isSleep

/-- One non-converged attempt of the loop for `hash`: fetch, re-announce, interval sleep. -/
def pollCycle (hash : String) : Trace :=
  [.GetTorrentTrackers hash, .ReAnnounceTorrents [hash],
    .Sleep (ReannounceInterval * Millisecond)]

/-- The history seen by poll number `i` (counted from 0) of `checkTrackerStatus` started
on the trace `tr`, when the `i` earlier attempts did not converge and did not fail: the
initial sleep followed by `i` poll cycles. -/
def historyAtPoll (tr : Trace) (hash : String) : Nat → Trace
  | 0 => tr ++ [.Sleep (6 * Second)]
  | i + 1 => historyAtPoll tr hash i ++ pollCycle hash

/-- Attempt `i` of the loop goes on to the next attempt: its poll succeeds and shows no
working tracker, and its re-announce call succeeds. -/
def attemptRetries (R : Remote) (qb : Client) (hash : String) (tr : Trace) (i : Nat) : Bool :=
  match R.GetTorrentTrackers (historyAtPoll tr hash i) qb hash with
  | .ok trackers =>
    !findTrackerStatus trackers &&
      (R.ReAnnounceTorrents (historyAtPoll tr hash i ++ [.GetTorrentTrackers hash])
        qb [hash]).isNone
  | .error _ => false

/-- Poll `i` succeeds and shows a working tracker. -/
def pollConverges (R : Remote) (qb : Client) (hash : String) (tr : Trace) (i : Nat) : Bool :=
  match R.GetTorrentTrackers (historyAtPoll tr hash i) qb hash with
  | .ok trackers => findTrackerStatus trackers
  | .error _ => false

/-- The outcome of a run of `checkTrackerStatus` whose last attempt is attempt `k`: the
poll fails, or it shows a working tracker, or the re-announce call fails. -/
def lastAttempt (R : Remote) (qb : Client) (hash : String) (tr : Trace) (k : Nat) :
    Option Error × Trace :=
  match R.GetTorrentTrackers (historyAtPoll tr hash k) qb hash with
  | .error err => (some err, historyAtPoll tr hash k ++ [.GetTorrentTrackers hash])
  | .ok trackers =>
    if findTrackerStatus trackers then
      (none, historyAtPoll tr hash k ++ [.GetTorrentTrackers hash])
    else
      (R.ReAnnounceTorrents (historyAtPoll tr hash k ++ [.GetTorrentTrackers hash]) qb [hash],
        historyAtPoll tr hash k ++ [.GetTorrentTrackers hash, .ReAnnounceTorrents [hash]])

/-- The events of a run of `checkTrackerStatus` started on the trace `tr`: what the run
has added to the trace. -/
def convergenceEvents (R : Remote) (qb : Client) (hash : String) (tr : Trace) : Trace :=
  (checkTrackerStatus R qb hash tr).2.drop tr.length

/-- The remote calls of a trace: the trace without its sleeps. -/
def remoteCalls (tr : Trace) : Trace := tr.filter (fun e => !e.isSleep)

/-- The time slept in a trace, in milliseconds. -/
def totalSleep : Trace → Nat
  | [] => 0
  | .Sleep ms :: rest => ms + totalSleep rest
  | _ :: rest => totalSleep rest

/-- The plain scan of the tracker list, without the skip of disabled entries: some entry
has status `TrackerStatusOK`. -/
def plainScan (slice : List TorrentTracker) : Bool :=
  slice.any (fun item => decide (item.Status = TrackerStatusOK))

/-- Value of a decimal digit. -/
def digitValue (c : Char) : Option Nat :=
  if c = '0' then some 0 else
  if c = '1' then some 1 else
  if c = '2' then some 2 else
  if c = '3' then some 3 else
  if c = '4' then some 4 else
  if c = '5' then some 5 else
  if c = '6' then some 6 else
  if c = '7' then some 7 else
  if c = '8' then some 8 else
  if c = '9' then some 9 else none

/-- Reading of a run of decimal digits, most significant first, onto an accumulator. -/
def parseDigits : List Char → Nat → Option Nat
  | [], acc => some acc
  | c :: cs, acc =>
    match digitValue c with
    | some d => parseDigits cs (acc * 10 + d)
    | none => none

/-- Reading of a decimal integer: an optional minus sign and at least one digit. -/
def parseDecimal (s : String) : Option Int :=
  if s.data.head? = some '-' then
    if s.data.tail = [] then none
    else (parseDigits s.data.tail 0).map (fun n : Nat => -Int.ofNat n)
  else
    if s.data = [] then none
    else (parseDigits s.data 0).map (fun n : Nat => Int.ofNat n)

/-! ## Sample inputs -/

/-- A download client with the given rules. -/
def sampleClient (rules : DownloadClientRules) : DownloadClient :=
  { Name := "qbit", Host := "localhost", Port := 8080, Username := "admin",
    Password := "adminadmin", SSL := false, Settings := { Rules := rules } }

/-- A service whose lookup finds `sampleClient rules`. -/
def sampleService (rules : DownloadClientRules) : service :=
  { clientSvc := { FindByID := fun _ => (some (sampleClient rules), none) } }

/-- An action with every option unset. -/
def sampleAction : Action :=
  { Name := "add", ClientID := 1, Paused := false, SavePath := "", Category := "",
    Tags := "", LimitUploadSpeed := 0, LimitDownloadSpeed := 0, IgnoreRules := false }

/-- A list of `n` active downloads. -/
def sampleDownloads (n : Nat) : List Torrent := List.replicate n { Hash := "h" }

/-- The number of tracker-status fetches in a history. -/
def pollsSoFar (tr : Trace) : Nat :=
  tr.countP (fun e => match e with | .GetTorrentTrackers _ => true | _ => false)

/-- A scripted remote: login succeeds; the two reads and the submission answer as given;
the tracker list of a poll depends on the number of earlier polls; re-announce and delete
answer as given. -/
def scriptedRemote (active : Except Error (List Torrent)) (info : Except Error TransferInfo)
    (add : Option Error) (polls : Nat → Except Error (List TorrentTracker))
    (reannounce : Nat → Option Error) (delete : Option Error) : Remote :=
  { Login := fun _ _ => none
    GetTorrentsActiveDownloads := fun _ _ => active
    GetTransferInfo := fun _ _ => info
    AddTorrentFromFile := fun _ _ _ _ => add
    GetTorrentTrackers := fun tr _ _ => polls (pollsSoFar tr)
    ReAnnounceTorrents := fun tr _ _ => reannounce (pollsSoFar tr)
    DeleteTorrents := fun _ _ _ _ => delete }

/-- A remote for the admission gate only. -/
def gateRemote (active : Except Error (List Torrent)) (info : Except Error TransferInfo) :
    Remote :=
  scriptedRemote active info none (fun _ => .ok []) (fun _ => none) none

/-- A remote whose first two polls show a disabled and a not yet contacted tracker and
whose third poll shows a working one as well. -/
def convergingRemote : Remote :=
  scriptedRemote (.ok []) (.ok ⟨0⟩) none
    (fun i =>
      if i < 2 then .ok [⟨TrackerStatusDisabled⟩, ⟨TrackerStatusNotContacted⟩]
      else .ok [⟨TrackerStatusDisabled⟩, ⟨TrackerStatusNotContacted⟩, ⟨TrackerStatusOK⟩])
    (fun _ => none) none

/-- A remote whose tracker never gets contacted: every poll shows one not yet contacted
tracker, every re-announce succeeds, and the delete answers as given. -/
def stuckRemote (delete : Option Error) : Remote :=
  scriptedRemote (.ok []) (.ok ⟨0⟩) none (fun _ => .ok [⟨TrackerStatusNotContacted⟩])
    (fun _ => none) delete

/-- A remote whose polls show a not yet contacted tracker until poll number `k`, which
fails with "unreachable"; re-announce calls succeed. -/
def failingPollRemote (k : Nat) : Remote :=
  scriptedRemote (.ok []) (.ok ⟨0⟩) none
    (fun i => if i < k then .ok [⟨TrackerStatusNotContacted⟩] else .error "unreachable")
    (fun _ => none) none

/-- The client handle used in the examples. -/
def sampleHandle : Client := handleOf (sampleClient ⟨false, 0, false, 0⟩)

/-- A service whose lookup finds no client and reports no error. -/
def emptyService : service :=
  { clientSvc := { FindByID := fun _ => (none, none) } }

/-! ## The admission gate -/

/-- Unfolding of the gate once the lookup has found a client and the login has succeeded
(lines 93-130). -/
theorem gate_after_login (R : Remote) (s : service) (action : Action) (tr : Trace)
    (client : DownloadClient)
    (hfind : s.clientSvc.FindByID action.ClientID = (some client, none))
    (hlogin : R.Login tr (handleOf client) = none) :
    qbittorrentCheckRulesCanDownload R s action tr =
      if client.Settings.Rules.Enabled && !action.IgnoreRules then
        match R.GetTorrentsActiveDownloads (tr ++ [.Login]) (handleOf client) with
        | .error err => (Fail err, tr ++ [.Login, .GetTorrentsActiveDownloads])
        | .ok activeDownloads =>
          if client.Settings.Rules.MaxActiveDownloads > 0 then
            if (activeDownloads.length : Int) ≥ client.Settings.Rules.MaxActiveDownloads then
              if client.Settings.Rules.IgnoreSlowTorrents then
                match R.GetTransferInfo (tr ++ [.Login, .GetTorrentsActiveDownloads])
                    (handleOf client) with
                | .error err =>
                  (Fail err, tr ++ [.Login, .GetTorrentsActiveDownloads, .GetTransferInfo])
                | .ok info =>
                  if info.DlInfoSpeed.tdiv 1024 ≥
                      client.Settings.Rules.DownloadSpeedThreshold then
                    (Defer, tr ++ [.Login, .GetTorrentsActiveDownloads, .GetTransferInfo])
                  else
                    (Admit (handleOf client),
                      tr ++ [.Login, .GetTorrentsActiveDownloads, .GetTransferInfo])
              else
                (Defer, tr ++ [.Login, .GetTorrentsActiveDownloads])
            else
              (Admit (handleOf client), tr ++ [.Login, .GetTorrentsActiveDownloads])
          else
            (Admit (handleOf client), tr ++ [.Login, .GetTorrentsActiveDownloads])
      else
        (Admit (handleOf client), tr ++ [.Login]) := by
  unfold qbittorrentCheckRulesCanDownload
  simp only [hfind]
  have hl : R.Login tr
      { NewClient
          { Hostname := client.Host
            Port := toUint client.Port
            Username := client.Username
            Password := client.Password
            SSL := client.SSL } with Name := client.Name } = none := hlogin
  simp only [hl, List.append_assoc, List.singleton_append, List.cons_append, List.nil_append,
    Admit, Defer, Fail, handleOf]

/-- The remote calls of one run of the gate, on every input: a prefix of login, active
downloads, transfer info. -/
theorem gate_trace_shape (R : Remote) (s : service) (action : Action) (tr : Trace) :
    ∃ new : Trace, (qbittorrentCheckRulesCanDownload R s action tr).2 = tr ++ new ∧
      (new = [] ∨ new = [.Login] ∨ new = [.Login, .GetTorrentsActiveDownloads] ∨
        new = [.Login, .GetTorrentsActiveDownloads, .GetTransferInfo]) := by
  unfold qbittorrentCheckRulesCanDownload
  split
  · exact ⟨[], by simp⟩
  · exact ⟨[], by simp⟩
  · simp only []
    split
    · exact ⟨[.Login], by simp⟩
    · split
      · split
        · exact ⟨[.Login, .GetTorrentsActiveDownloads], by simp⟩
        · split
          · split
            · split
              · split
                · exact ⟨[.Login, .GetTorrentsActiveDownloads, .GetTransferInfo], by simp⟩
                · split
                  · exact ⟨[.Login, .GetTorrentsActiveDownloads, .GetTransferInfo], by simp⟩
                  · exact ⟨[.Login, .GetTorrentsActiveDownloads, .GetTransferInfo], by simp⟩
              · exact ⟨[.Login, .GetTorrentsActiveDownloads], by simp⟩
            · exact ⟨[.Login, .GetTorrentsActiveDownloads], by simp⟩
          · exact ⟨[.Login, .GetTorrentsActiveDownloads], by simp⟩
      · exact ⟨[.Login], by simp⟩

/-- C1: when the client lookup and the login succeed and the rules are disabled
(`Rules.Enabled` false) or the action is exempt (`IgnoreRules` true), the gate returns
Admit, that is `(true, handle, nil)`, and the only remote call of the run is the login:
neither `GetTorrentsActiveDownloads` nor `GetTransferInfo` is called. -/
theorem C1_rules_off_or_exempt_admits_without_read (R : Remote) (s : service)
    (action : Action) (tr : Trace) (client : DownloadClient)
    (hfind : s.clientSvc.FindByID action.ClientID = (some client, none))
    (hlogin : R.Login tr (handleOf client) = none)
    (h : client.Settings.Rules.Enabled = false ∨ action.IgnoreRules = true) :
    qbittorrentCheckRulesCanDownload R s action tr =
        ((true, some (handleOf client), none), tr ++ [.Login]) ∧
      (qbittorrentCheckRulesCanDownload R s action tr).2.countP Event.isRemoteRead =
        tr.countP Event.isRemoteRead := by
  have hc : (client.Settings.Rules.Enabled && !action.IgnoreRules) = false := by
    rcases h with h | h <;> simp [h]
  have hr := gate_after_login R s action tr client hfind hlogin
  rw [hc] at hr
  simp only [Bool.false_eq_true, if_false] at hr
  rw [hr]
  refine ⟨rfl, ?_⟩
  simp [List.countP_append, Event.isRemoteRead]

/-- Witness of C1: rules disabled, nine active downloads on the remote side. -/
theorem C1_witness :
    (sampleService ⟨false, 5, false, 0⟩).clientSvc.FindByID sampleAction.ClientID =
        (some (sampleClient ⟨false, 5, false, 0⟩), none) ∧
      qbittorrentCheckRulesCanDownload (gateRemote (.ok (sampleDownloads 9)) (.ok ⟨0⟩))
          (sampleService ⟨false, 5, false, 0⟩) sampleAction [] =
        ((true, some (handleOf (sampleClient ⟨false, 5, false, 0⟩)), none), [.Login]) :=
  ⟨rfl, (C1_rules_off_or_exempt_admits_without_read
    (gateRemote (.ok (sampleDownloads 9)) (.ok ⟨0⟩)) (sampleService ⟨false, 5, false, 0⟩)
    sampleAction [] (sampleClient ⟨false, 5, false, 0⟩) rfl rfl (Or.inl rfl)).1⟩

/-- C2: with rules enabled, a non-exempt action, `MaxActiveDownloads = m > 0` and a
fetched list of `n` active downloads: `n < m` gives Admit; `n >= m` with
`IgnoreSlowTorrents` false gives Defer, `(false, nil, nil)`.  In both cases the remote
calls are the login and the one list fetch: no transfer info is fetched. -/
theorem C2_count_limit (R : Remote) (s : service) (action : Action) (tr : Trace)
    (client : DownloadClient) (activeDownloads : List Torrent)
    (hfind : s.clientSvc.FindByID action.ClientID = (some client, none))
    (hlogin : R.Login tr (handleOf client) = none)
    (hen : client.Settings.Rules.Enabled = true) (hex : action.IgnoreRules = false)
    (hm : client.Settings.Rules.MaxActiveDownloads > 0)
    (hfetch : R.GetTorrentsActiveDownloads (tr ++ [.Login]) (handleOf client) =
      .ok activeDownloads) :
    ((activeDownloads.length : Int) < client.Settings.Rules.MaxActiveDownloads →
        qbittorrentCheckRulesCanDownload R s action tr =
          ((true, some (handleOf client), none),
            tr ++ [.Login, .GetTorrentsActiveDownloads])) ∧
      ((activeDownloads.length : Int) ≥ client.Settings.Rules.MaxActiveDownloads →
        client.Settings.Rules.IgnoreSlowTorrents = false →
        qbittorrentCheckRulesCanDownload R s action tr =
          ((false, none, none), tr ++ [.Login, .GetTorrentsActiveDownloads])) := by
  have hr := gate_after_login R s action tr client hfind hlogin
  simp only [hen, hex, hfetch, Bool.not_false, Bool.and_self, if_true, hm] at hr
  rw [hr]
  constructor
  · intro hlt
    rw [if_neg (not_le.mpr hlt)]
    rfl
  · intro hge hslow
    rw [if_pos hge, hslow]
    rfl

/-- Witness of C2, the scenario of the specification: enabled, limit 5, slow override
off, five active downloads: Defer. -/
theorem C2_witness :
    (5 : Int) > 0 ∧
      qbittorrentCheckRulesCanDownload (gateRemote (.ok (sampleDownloads 5)) (.ok ⟨0⟩))
          (sampleService ⟨true, 5, false, 0⟩) sampleAction [] =
        ((false, none, none), [.Login, .GetTorrentsActiveDownloads]) :=
  ⟨by decide, (C2_count_limit (gateRemote (.ok (sampleDownloads 5)) (.ok ⟨0⟩))
    (sampleService ⟨true, 5, false, 0⟩) sampleAction [] (sampleClient ⟨true, 5, false, 0⟩)
    (sampleDownloads 5) rfl rfl rfl rfl (by decide) rfl).2 (by decide) rfl⟩

/-- C3: with rules enabled, a non-exempt action, `MaxActiveDownloads = m > 0`,
`IgnoreSlowTorrents` true, a fetched list of `n >= m` active downloads and fetched
transfer info with download rate `r` bytes per second, for the threshold `t`: the gate
returns Admit if and only if `r/1024 < t`, and Defer if and only if `r/1024 >= t`
(Go integer division, which truncates). -/
theorem C3_speed_override (R : Remote) (s : service) (action : Action) (tr : Trace)
    (client : DownloadClient) (activeDownloads : List Torrent) (info : TransferInfo)
    (hfind : s.clientSvc.FindByID action.ClientID = (some client, none))
    (hlogin : R.Login tr (handleOf client) = none)
    (hen : client.Settings.Rules.Enabled = true) (hex : action.IgnoreRules = false)
    (hm : client.Settings.Rules.MaxActiveDownloads > 0)
    (hslow : client.Settings.Rules.IgnoreSlowTorrents = true)
    (hfetch : R.GetTorrentsActiveDownloads (tr ++ [.Login]) (handleOf client) =
      .ok activeDownloads)
    (hn : (activeDownloads.length : Int) ≥ client.Settings.Rules.MaxActiveDownloads)
    (hinfo : R.GetTransferInfo (tr ++ [.Login, .GetTorrentsActiveDownloads])
      (handleOf client) = .ok info) :
    ((qbittorrentCheckRulesCanDownload R s action tr).1 =
          (true, some (handleOf client), none) ↔
        info.DlInfoSpeed.tdiv 1024 < client.Settings.Rules.DownloadSpeedThreshold) ∧
      ((qbittorrentCheckRulesCanDownload R s action tr).1 = (false, none, none) ↔
        info.DlInfoSpeed.tdiv 1024 ≥ client.Settings.Rules.DownloadSpeedThreshold) := by
  have hr := gate_after_login R s action tr client hfind hlogin
  simp only [hen, hex, hfetch, Bool.not_false, Bool.and_self, if_true, hm, if_pos hn, hslow,
    hinfo] at hr
  rw [hr]
  by_cases hge : info.DlInfoSpeed.tdiv 1024 ≥ client.Settings.Rules.DownloadSpeedThreshold
  · rw [if_pos hge]
    simp [Defer, hge, not_lt.mpr hge]
  · rw [if_neg hge]
    simp [Admit, hge, not_le.mp hge]

/-- Witness of C3: limit 2 reached by three downloads, rate 1023999 bytes per second is
999 KB/s, below the threshold 1000: Admit. -/
theorem C3_witness :
    ((3 : Int) ≥ 2) ∧
      ((qbittorrentCheckRulesCanDownload
            (gateRemote (.ok (sampleDownloads 3)) (.ok ⟨1023999⟩))
            (sampleService ⟨true, 2, true, 1000⟩) sampleAction []).1 =
          (true, some (handleOf (sampleClient ⟨true, 2, true, 1000⟩)), none) ↔
        (1023999 : Int).tdiv 1024 < 1000) :=
  ⟨by decide, (C3_speed_override (gateRemote (.ok (sampleDownloads 3)) (.ok ⟨1023999⟩))
    (sampleService ⟨true, 2, true, 1000⟩) sampleAction [] (sampleClient ⟨true, 2, true, 1000⟩)
    (sampleDownloads 3) ⟨1023999⟩ rfl rfl rfl rfl (by decide) rfl rfl (by decide) rfl).1⟩

/-- C4: with rules enabled, a non-exempt action and `MaxActiveDownloads <= 0`, every
fetched list of active downloads gives Admit, whatever `IgnoreSlowTorrents` and
`DownloadSpeedThreshold` are; the remote calls are the login and the list fetch, so
transfer info is never fetched. -/
theorem C4_no_limit_admits (R : Remote) (s : service) (action : Action) (tr : Trace)
    (client : DownloadClient) (activeDownloads : List Torrent)
    (hfind : s.clientSvc.FindByID action.ClientID = (some client, none))
    (hlogin : R.Login tr (handleOf client) = none)
    (hen : client.Settings.Rules.Enabled = true) (hex : action.IgnoreRules = false)
    (hm : client.Settings.Rules.MaxActiveDownloads ≤ 0)
    (hfetch : R.GetTorrentsActiveDownloads (tr ++ [.Login]) (handleOf client) =
      .ok activeDownloads) :
    qbittorrentCheckRulesCanDownload R s action tr =
        ((true, some (handleOf client), none), tr ++ [.Login, .GetTorrentsActiveDownloads]) ∧
      Event.GetTransferInfo ∉
        (qbittorrentCheckRulesCanDownload R s action tr).2.drop tr.length := by
  have hr := gate_after_login R s action tr client hfind hlogin
  simp only [hen, hex, hfetch, Bool.not_false, Bool.and_self, if_true,
    if_neg (not_lt.mpr hm)] at hr
  rw [hr]
  refine ⟨rfl, ?_⟩
  simp

/-- Witness of C4: limit 0 (unset), slow override on with threshold 0, forty active
downloads: Admit. -/
theorem C4_witness :
    ((0 : Int) ≤ 0) ∧
      qbittorrentCheckRulesCanDownload (gateRemote (.ok (sampleDownloads 40)) (.ok ⟨5000000⟩))
          (sampleService ⟨true, 0, true, 0⟩) sampleAction [] =
        ((true, some (handleOf (sampleClient ⟨true, 0, true, 0⟩)), none),
          [.Login, .GetTorrentsActiveDownloads]) :=
  ⟨by decide, (C4_no_limit_admits (gateRemote (.ok (sampleDownloads 40)) (.ok ⟨5000000⟩))
    (sampleService ⟨true, 0, true, 0⟩) sampleAction [] (sampleClient ⟨true, 0, true, 0⟩)
    (sampleDownloads 40) rfl rfl rfl rfl (by decide) rfl).1⟩

/-- C5: with rules enabled and a non-exempt action: (1) if the active-download fetch
fails with error `e`, the gate returns `(false, nil, e)` and makes no further remote call,
whatever `MaxActiveDownloads` is; (2) if the count limit is reached, `IgnoreSlowTorrents`
is true and the transfer-info fetch fails with `e`, the gate returns `(false, nil, e)`
and that fetch is the last call; (3) in every run each remote call occurs at most once:
nothing is retried. -/
theorem C5_fetch_errors_propagate (R : Remote) (s : service) (action : Action) (tr : Trace)
    (client : DownloadClient) (e : Error)
    (hfind : s.clientSvc.FindByID action.ClientID = (some client, none))
    (hlogin : R.Login tr (handleOf client) = none)
    (hen : client.Settings.Rules.Enabled = true) (hex : action.IgnoreRules = false) :
    (R.GetTorrentsActiveDownloads (tr ++ [.Login]) (handleOf client) = .error e →
        qbittorrentCheckRulesCanDownload R s action tr =
          ((false, none, some e), tr ++ [.Login, .GetTorrentsActiveDownloads])) ∧
      (∀ activeDownloads : List Torrent,
        R.GetTorrentsActiveDownloads (tr ++ [.Login]) (handleOf client) = .ok activeDownloads →
        client.Settings.Rules.MaxActiveDownloads > 0 →
        (activeDownloads.length : Int) ≥ client.Settings.Rules.MaxActiveDownloads →
        client.Settings.Rules.IgnoreSlowTorrents = true →
        R.GetTransferInfo (tr ++ [.Login, .GetTorrentsActiveDownloads]) (handleOf client) =
          .error e →
        qbittorrentCheckRulesCanDownload R s action tr =
          ((false, none, some e),
            tr ++ [.Login, .GetTorrentsActiveDownloads, .GetTransferInfo])) ∧
      (∃ new : Trace, (qbittorrentCheckRulesCanDownload R s action tr).2 = tr ++ new ∧
        ∀ ev : Event, new.count ev ≤ 1) := by
  have hr := gate_after_login R s action tr client hfind hlogin
  simp only [hen, hex, Bool.not_false, Bool.and_self, if_true] at hr
  refine ⟨?_, ?_, ?_⟩
  · intro hfail
    rw [hr, hfail]
    rfl
  · intro activeDownloads hfetch hm hn hslow hfail
    rw [hr, hfetch]
    simp only [hm, if_true, if_pos hn, hslow, hfail]
    rfl
  · obtain ⟨new, hnew, hshape⟩ := gate_trace_shape R s action tr
    refine ⟨new, hnew, ?_⟩
    have hnd : new.Nodup := by
      rcases hshape with h | h | h | h <;> subst h <;> decide
    exact List.nodup_iff_count_le_one.mp hnd

/-- Witness of C5: the list fetch fails with "timeout" while the limit is 0. -/
theorem C5_witness :
    (gateRemote (.error "timeout") (.ok ⟨0⟩)).GetTorrentsActiveDownloads ([] ++ [.Login])
          (handleOf (sampleClient ⟨true, 0, true, 0⟩)) = .error "timeout" ∧
      qbittorrentCheckRulesCanDownload (gateRemote (.error "timeout") (.ok ⟨0⟩))
          (sampleService ⟨true, 0, true, 0⟩) sampleAction [] =
        ((false, none, some "timeout"), [.Login, .GetTorrentsActiveDownloads]) :=
  ⟨rfl, (C5_fetch_errors_propagate (gateRemote (.error "timeout") (.ok ⟨0⟩))
    (sampleService ⟨true, 0, true, 0⟩) sampleAction [] (sampleClient ⟨true, 0, true, 0⟩)
    "timeout" rfl rfl rfl rfl).1 rfl⟩

/-! ## The traces of the convergence loop -/

/-- The loop only appends events to the trace, all of them steps of the convergence loop. -/
theorem checkTrackerStatusLoop_trace (R : Remote) (qb : Client) (hash : String) :
    ∀ (n attempts : Nat) (announceOK : Bool) (tr : Trace),
      ReannounceMaxAttempts - attempts = n →
      ∃ new : Trace, (checkTrackerStatusLoop R qb hash announceOK attempts tr).2 = tr ++ new ∧
        ∀ e ∈ new, e.isConvergence = true := by
  intro n
  induction n with
  | zero =>
    intro attempts announceOK tr hn
    have hge : ¬ attempts < ReannounceMaxAttempts := by omega
    rw [checkTrackerStatusLoop, if_neg hge]
    exact ⟨[], by simp⟩
  | succ n ih =>
    intro attempts announceOK tr hn
    have hlt : attempts < ReannounceMaxAttempts := by omega
    rw [checkTrackerStatusLoop, if_pos hlt]
    split
    · exact ⟨[.GetTorrentTrackers hash], rfl, by simp [Event.isConvergence, Event.isFetch]⟩
    · simp only []
      split
      · exact ⟨[.GetTorrentTrackers hash], rfl, by simp [Event.isConvergence, Event.isFetch]⟩
      · split
        · refine ⟨[.GetTorrentTrackers hash, .ReAnnounceTorrents [hash]], by simp, ?_⟩
          simp [Event.isConvergence, Event.isFetch, Event.isReannounce]
        · obtain ⟨new, hnew, hall⟩ := ih (attempts + 1) announceOK
            (tr ++ [.GetTorrentTrackers hash] ++ [.ReAnnounceTorrents [hash]] ++
              [.Sleep (ReannounceInterval * Millisecond)]) (by omega)
          refine ⟨pollCycle hash ++ new, ?_, ?_⟩
          · rw [hnew]
            simp [pollCycle]
          · intro e he
            rcases List.mem_append.mp he with h | h
            · simp only [pollCycle, List.mem_cons, List.mem_singleton, List.not_mem_nil,
                or_false] at h
              rcases h with h | h | h <;> subst h <;> rfl
            · exact hall e h

/-- Every run of `checkTrackerStatus` starts with the initial sleep and then only appends
steps of the convergence loop. -/
theorem checkTrackerStatus_trace (R : Remote) (qb : Client) (hash : String) (tr : Trace) :
    ∃ rest : Trace, (checkTrackerStatus R qb hash tr).2 = tr ++ .Sleep (6 * Second) :: rest ∧
      ∀ e ∈ rest, e.isConvergence = true := by
  obtain ⟨new, hnew, hall⟩ := checkTrackerStatusLoop_trace R qb hash _ 0 false
    (tr ++ [.Sleep (6 * Second)]) rfl
  unfold checkTrackerStatus
  simp only []
  split
  · rename_i err tr1 heq
    rw [heq] at hnew
    simp only at hnew
    exact ⟨new, by rw [hnew]; simp, hall⟩
  · rename_i ok att tr1 heq
    rw [heq] at hnew
    simp only at hnew
    subst hnew
    split
    · split
      · refine ⟨new ++ [.Sleep (30 * Second), .DeleteTorrents [hash] false], by simp, ?_⟩
        intro e he
        rcases List.mem_append.mp he with h | h
        · exact hall e h
        · simp only [List.mem_cons, List.mem_singleton, List.not_mem_nil, or_false] at h
          rcases h with h | h <;> subst h <;> rfl
      · refine ⟨new ++ [.Sleep (30 * Second), .DeleteTorrents [hash] false], by simp, ?_⟩
        intro e he
        rcases List.mem_append.mp he with h | h
        · exact hall e h
        · simp only [List.mem_cons, List.mem_singleton, List.not_mem_nil, or_false] at h
          rcases h with h | h <;> subst h <;> rfl
    · refine ⟨new ++ [.Sleep (30 * Second)], by simp, ?_⟩
      intro e he
      rcases List.mem_append.mp he with h | h
      · exact hall e h
      · simp only [List.mem_singleton] at h
        subst h
        rfl

/-! ## The option map -/

/-- Keys after an assignment: the assigned key and the keys already present. -/
theorem Options.mem_keys_set (m : Options) (k v k1 : String) :
    k1 ∈ (m.set k v).keys ↔ k1 = k ∨ k1 ∈ m.keys := by
  unfold Options.set
  split
  · rename_i hany
    have hk : k ∈ m.keys := by
      simp only [List.any_eq_true, beq_iff_eq] at hany
      obtain ⟨p, hp, hpk⟩ := hany
      exact List.mem_map.mpr ⟨p, hp, hpk⟩
    have hmap : Options.keys (m.map (fun p => if p.1 == k then (k, v) else p)) = m.keys := by
      simp only [Options.keys, List.map_map]
      apply List.map_congr_left
      intro p _
      by_cases hpk : p.1 = k <;> simp [hpk]
    rw [hmap]
    constructor
    · exact Or.inr
    · rintro (h | h)
      · exact h ▸ hk
      · exact h
  · simp only [Options.keys, List.map_append, List.map_cons, List.map_nil, List.mem_append,
      List.mem_singleton]
    exact Or.comm

/-- Keys after a guarded assignment. -/
theorem Options.mem_keys_ite_set (c : Prop) [Decidable c] (m : Options) (k v k1 : String) :
    k1 ∈ Options.keys (if c then m.set k v else m) ↔ (c ∧ k1 = k) ∨ k1 ∈ m.keys := by
  by_cases hc : c
  · simp [hc, Options.mem_keys_set]
  · simp [hc]

/-- The keys of the option map of lines 19-39: one per set field, two for the save path. -/
theorem qbittorrentOptions_keys (action : Action) (k : String) :
    k ∈ (qbittorrentOptions action).keys ↔
      (k = "paused" ∧ action.Paused = true) ∨
      (k = "savepath" ∧ action.SavePath ≠ "") ∨
      (k = "autoTMM" ∧ action.SavePath ≠ "") ∨
      (k = "category" ∧ action.Category ≠ "") ∨
      (k = "tags" ∧ action.Tags ≠ "") ∨
      (k = "upLimit" ∧ action.LimitUploadSpeed > 0) ∨
      (k = "dlLimit" ∧ action.LimitDownloadSpeed > 0) := by
  have hnil : ∀ k1 : String, k1 ∈ Options.keys [] ↔ False := by
    intro k1
    simp [Options.keys]
  have h1 := Options.mem_keys_ite_set (action.Paused = true) [] "paused" "true" k
  have h2 := fun m : Options =>
    Options.mem_keys_ite_set (action.SavePath ≠ "") m "savepath" action.SavePath k
  have h3 := fun m : Options =>
    Options.mem_keys_ite_set (action.Category ≠ "") m "category" action.Category k
  have h4 := fun m : Options =>
    Options.mem_keys_ite_set (action.Tags ≠ "") m "tags" action.Tags k
  have h5 := fun m : Options => Options.mem_keys_ite_set (action.LimitUploadSpeed > 0) m
    "upLimit" (FormatInt action.LimitUploadSpeed 10) k
  have h6 := fun m : Options => Options.mem_keys_ite_set (action.LimitDownloadSpeed > 0) m
    "dlLimit" (FormatInt action.LimitDownloadSpeed 10) k
  unfold qbittorrentOptions
  simp only []
  rw [h6, h5, h4, h3]
  clear h1 h2 h3 h4 h5 h6
  have hkeys : k ∈ Options.keys
      (if action.SavePath ≠ "" then
        ((if action.Paused = true then Options.set [] "paused" "true" else []).set "savepath"
          action.SavePath).set "autoTMM" "false"
      else if action.Paused = true then Options.set [] "paused" "true" else []) ↔
      (action.SavePath ≠ "" ∧ (k = "autoTMM" ∨ k = "savepath")) ∨
        (action.Paused = true ∧ k = "paused") := by
    by_cases hs : action.SavePath ≠ ""
    · rw [if_pos hs, Options.mem_keys_set, Options.mem_keys_set,
        Options.mem_keys_ite_set, hnil]
      simp only [ne_eq, hs, not_false_eq_true, true_and, or_false, or_assoc]
    · rw [if_neg hs, Options.mem_keys_ite_set, hnil]
      simp only [ne_eq, hs, false_and, false_or, or_false]
  rw [hkeys]
  clear hkeys hnil
  generalize (k = "paused") = p1
  generalize (k = "savepath") = p2
  generalize (k = "autoTMM") = p3
  generalize (k = "category") = p4
  generalize (k = "tags") = p5
  generalize (k = "upLimit") = p6
  generalize (k = "dlLimit") = p7
  generalize (action.Paused = true) = c1
  generalize (action.SavePath ≠ "") = c2
  generalize (action.Category ≠ "") = c4
  generalize (action.Tags ≠ "") = c5
  generalize (action.LimitUploadSpeed > 0) = c6
  generalize (action.LimitDownloadSpeed > 0) = c7
  tauto

/-! ## Submission -/

/-- The method `qbittorrent` once the submission has succeeded (lines 49-59). -/
theorem qbittorrent_after_add (R : Remote) (s : service) (qbt : Client) (action : Action)
    (torrentFile hash : String) (tr : Trace)
    (hadd : R.AddTorrentFromFile tr qbt torrentFile (qbittorrentOptions action) = none) :
    qbittorrent R s qbt action torrentFile hash tr =
      if action.Paused = false ∧ hash ≠ "" then
        checkTrackerStatus R qbt hash
          (tr ++ [.AddTorrentFromFile torrentFile (qbittorrentOptions action)])
      else
        (none, tr ++ [.AddTorrentFromFile torrentFile (qbittorrentOptions action)]) := by
  unfold qbittorrent
  simp only [hadd]
  by_cases hp : action.Paused = false ∧ hash ≠ ""
  · rw [if_pos hp]
    have hc : (!action.Paused && decide (hash ≠ "")) = true := by
      simp [hp.1, hp.2]
    rw [if_pos hc]
    split <;> simp_all
  · rw [if_neg hp]
    have hc : ¬ (!action.Paused && decide (hash ≠ "")) = true := by
      intro h
      apply hp
      simpa using h
    rw [if_neg hc]

/-- The events of one run of `qbittorrent`: the submission call, then only steps of the
convergence loop. -/
theorem qbittorrent_trace (R : Remote) (s : service) (qbt : Client) (action : Action)
    (torrentFile hash : String) (tr : Trace) :
    ∃ rest : Trace, (qbittorrent R s qbt action torrentFile hash tr).2 =
        tr ++ .AddTorrentFromFile torrentFile (qbittorrentOptions action) :: rest ∧
      ∀ e ∈ rest, e.isConvergence = true := by
  cases hadd : R.AddTorrentFromFile tr qbt torrentFile (qbittorrentOptions action) with
  | some err =>
    refine ⟨[], ?_, by simp⟩
    unfold qbittorrent
    simp only [hadd]
  | none =>
    rw [qbittorrent_after_add R s qbt action torrentFile hash tr hadd]
    split
    · obtain ⟨rest, hrest, hall⟩ := checkTrackerStatus_trace R qbt hash
        (tr ++ [.AddTorrentFromFile torrentFile (qbittorrentOptions action)])
      refine ⟨.Sleep (6 * Second) :: rest, by rw [hrest]; simp, ?_⟩
      intro e he
      rcases List.mem_cons.mp he with h | h
      · subst h
        rfl
      · exact hall e h
    · exact ⟨[], by simp, by simp⟩

/-- C6: the option map passed to the submission call holds a key only for a field that
is set: "paused" iff `Paused`; "savepath" and the auto-management key "autoTMM" iff
`SavePath` is non-empty; "category" iff `Category` is non-empty; "tags" iff `Tags` is
non-empty; "upLimit" iff `LimitUploadSpeed > 0`; "dlLimit" iff `LimitDownloadSpeed > 0`;
there is no other key.  An action with every option unset (rate caps zero or negative)
yields the empty map. -/
theorem C6_option_map_is_sparse (R : Remote) (s : service) (qbt : Client) (action : Action)
    (torrentFile hash : String) (tr : Trace) :
    (∃ rest : Trace, (qbittorrent R s qbt action torrentFile hash tr).2 =
        tr ++ .AddTorrentFromFile torrentFile (qbittorrentOptions action) :: rest) ∧
      ("paused" ∈ (qbittorrentOptions action).keys ↔ action.Paused = true) ∧
      ("savepath" ∈ (qbittorrentOptions action).keys ↔ action.SavePath ≠ "") ∧
      ("autoTMM" ∈ (qbittorrentOptions action).keys ↔ action.SavePath ≠ "") ∧
      ("category" ∈ (qbittorrentOptions action).keys ↔ action.Category ≠ "") ∧
      ("tags" ∈ (qbittorrentOptions action).keys ↔ action.Tags ≠ "") ∧
      ("upLimit" ∈ (qbittorrentOptions action).keys ↔ action.LimitUploadSpeed > 0) ∧
      ("dlLimit" ∈ (qbittorrentOptions action).keys ↔ action.LimitDownloadSpeed > 0) ∧
      (∀ k ∈ (qbittorrentOptions action).keys,
        k ∈ ["paused", "savepath", "autoTMM", "category", "tags", "upLimit", "dlLimit"]) ∧
      (action.Paused = false → action.SavePath = "" → action.Category = "" →
        action.Tags = "" → action.LimitUploadSpeed ≤ 0 → action.LimitDownloadSpeed ≤ 0 →
        qbittorrentOptions action = []) := by
  obtain ⟨rest, hrest, _⟩ := qbittorrent_trace R s qbt action torrentFile hash tr
  refine ⟨⟨rest, hrest⟩, ?_, ?_, ?_, ?_, ?_, ?_, ?_, ?_, ?_⟩
  · rw [qbittorrentOptions_keys]; simp
  · rw [qbittorrentOptions_keys]; simp
  · rw [qbittorrentOptions_keys]; simp
  · rw [qbittorrentOptions_keys]; simp
  · rw [qbittorrentOptions_keys]; simp
  · rw [qbittorrentOptions_keys]; simp
  · rw [qbittorrentOptions_keys]; simp
  · intro k hk
    rw [qbittorrentOptions_keys] at hk
    simp only [List.mem_cons, List.mem_singleton, List.not_mem_nil, or_false]
    rcases hk with h | h | h | h | h | h | h
    · exact Or.inl h.1
    · exact Or.inr (Or.inl h.1)
    · exact Or.inr (Or.inr (Or.inl h.1))
    · exact Or.inr (Or.inr (Or.inr (Or.inl h.1)))
    · exact Or.inr (Or.inr (Or.inr (Or.inr (Or.inl h.1))))
    · exact Or.inr (Or.inr (Or.inr (Or.inr (Or.inr (Or.inl h.1)))))
    · exact Or.inr (Or.inr (Or.inr (Or.inr (Or.inr (Or.inr h.1)))))
  · intro h1 h2 h3 h4 h5 h6
    have hnokey : ∀ k, k ∉ (qbittorrentOptions action).keys := by
      intro k hk
      rw [qbittorrentOptions_keys] at hk
      rcases hk with h | h | h | h | h | h | h
      · rw [h1] at h; exact Bool.noConfusion h.2
      · exact h.2 h2
      · exact h.2 h2
      · exact h.2 h3
      · exact h.2 h4
      · exact absurd h.2 (not_lt.mpr h5)
      · exact absurd h.2 (not_lt.mpr h6)
    cases hopt : qbittorrentOptions action with
    | nil => rfl
    | cons p rest =>
      exfalso
      apply hnokey p.1
      rw [hopt]
      simp [Options.keys]

/-- Witness of C6: no option set, upload cap -1 and download cap 0: the empty map. -/
theorem C6_witness :
    (-1 : Int) ≤ 0 ∧
      qbittorrentOptions { sampleAction with LimitUploadSpeed := -1 } = [] :=
  ⟨by decide, (C6_option_map_is_sparse (gateRemote (.ok []) (.ok ⟨0⟩))
    (sampleService ⟨false, 0, false, 0⟩) (handleOf (sampleClient ⟨false, 0, false, 0⟩))
    { sampleAction with LimitUploadSpeed := -1 } "a.torrent" "abc" []).2.2.2.2.2.2.2.2.2
    rfl rfl rfl rfl (by decide) (by decide)⟩

/-- A step of the convergence loop is not a submission. -/
theorem Event.not_isSubmission_of_isConvergence (e : Event) (h : e.isConvergence = true) :
    e.isSubmission = false := by
  cases e <;> first | rfl | (exact absurd h (by simp [Event.isConvergence, Event.isFetch,
    Event.isReannounce, Event.isDelete, Event.isSleep]))

/-- C7: `qbittorrent` performs exactly one submission call in every run; if that call
fails with error `e`, `qbittorrent` returns exactly `e` and the submission is the only
event of the run: no tracker-status fetch, no re-announce, no delete and no sleep. -/
theorem C7_one_submission_and_failure_aborts (R : Remote) (s : service) (qbt : Client)
    (action : Action) (torrentFile hash : String) (tr : Trace) (e : Error) :
    (∃ new : Trace, (qbittorrent R s qbt action torrentFile hash tr).2 = tr ++ new ∧
        new.countP Event.isSubmission = 1) ∧
      (R.AddTorrentFromFile tr qbt torrentFile (qbittorrentOptions action) = some e →
        qbittorrent R s qbt action torrentFile hash tr =
            (some e, tr ++ [.AddTorrentFromFile torrentFile (qbittorrentOptions action)]) ∧
          ∀ ev ∈ (qbittorrent R s qbt action torrentFile hash tr).2.drop tr.length,
            ev.isConvergence = false) := by
  constructor
  · obtain ⟨rest, hrest, hall⟩ := qbittorrent_trace R s qbt action torrentFile hash tr
    refine ⟨_, hrest, ?_⟩
    have hzero : rest.countP Event.isSubmission = 0 := by
      rw [List.countP_eq_zero]
      intro ev hev
      rw [Event.not_isSubmission_of_isConvergence ev (hall ev hev)]
      decide
    rw [List.countP_cons, hzero]
    rfl
  · intro hfail
    have hres : qbittorrent R s qbt action torrentFile hash tr =
        (some e, tr ++ [.AddTorrentFromFile torrentFile (qbittorrentOptions action)]) := by
      unfold qbittorrent
      simp only [hfail]
    refine ⟨hres, ?_⟩
    rw [hres]
    intro ev hev
    simp only [List.drop_left, List.mem_singleton] at hev
    subst hev
    rfl

/-- Witness of C7: the client rejects the torrent file. -/
theorem C7_witness :
    qbittorrent (scriptedRemote (.ok []) (.ok ⟨0⟩) (some "rejected") (fun _ => .ok [])
          (fun _ => none) none)
        (sampleService ⟨false, 0, false, 0⟩) (handleOf (sampleClient ⟨false, 0, false, 0⟩))
        sampleAction "a.torrent" "abc" [] =
      (some "rejected", [.AddTorrentFromFile "a.torrent" []]) :=
  ((C7_one_submission_and_failure_aborts (scriptedRemote (.ok []) (.ok ⟨0⟩) (some "rejected")
      (fun _ => .ok []) (fun _ => none) none)
    (sampleService ⟨false, 0, false, 0⟩) (handleOf (sampleClient ⟨false, 0, false, 0⟩))
    sampleAction "a.torrent" "abc" [] "rejected").2 rfl).1

/-- C8: when the submission call succeeds, the convergence loop `checkTrackerStatus` is
entered if and only if `Paused` is false and `hash` is non-empty: in that case the result
of `qbittorrent` is that of `checkTrackerStatus` run right after the submission, and the
run continues with the initial sleep; when `Paused` is true or `hash` is empty,
`qbittorrent` returns nil and the submission is the only event of the run, so there is no
tracker-status fetch, no re-announce and no delete call. -/
theorem C8_convergence_only_if_unpaused_with_hash (R : Remote) (s : service) (qbt : Client)
    (action : Action) (torrentFile hash : String) (tr : Trace)
    (hadd : R.AddTorrentFromFile tr qbt torrentFile (qbittorrentOptions action) = none) :
    (action.Paused = false ∧ hash ≠ "" →
        qbittorrent R s qbt action torrentFile hash tr =
          checkTrackerStatus R qbt hash
            (tr ++ [.AddTorrentFromFile torrentFile (qbittorrentOptions action)])) ∧
      (action.Paused = true ∨ hash = "" →
        qbittorrent R s qbt action torrentFile hash tr =
          (none, tr ++ [.AddTorrentFromFile torrentFile (qbittorrentOptions action)])) ∧
      ((∃ ev ∈ (qbittorrent R s qbt action torrentFile hash tr).2.drop tr.length,
          ev.isConvergence = true) ↔ (action.Paused = false ∧ hash ≠ "")) := by
  have hr := qbittorrent_after_add R s qbt action torrentFile hash tr hadd
  refine ⟨?_, ?_, ?_⟩
  · intro hc
    rw [hr, if_pos hc]
  · intro hc
    have hn : ¬ (action.Paused = false ∧ hash ≠ "") := by
      rintro ⟨h1, h2⟩
      rcases hc with h | h
      · rw [h1] at h
        exact Bool.noConfusion h
      · exact h2 h
    rw [hr, if_neg hn]
  · by_cases hc : action.Paused = false ∧ hash ≠ ""
    · refine iff_of_true ?_ hc
      rw [hr, if_pos hc]
      obtain ⟨rest, hrest, _⟩ := checkTrackerStatus_trace R qbt hash
        (tr ++ [.AddTorrentFromFile torrentFile (qbittorrentOptions action)])
      refine ⟨.Sleep (6 * Second), ?_, rfl⟩
      rw [hrest, List.append_assoc, List.drop_left]
      simp
    · refine iff_of_false ?_ hc
      rw [hr, if_neg hc]
      rintro ⟨ev, hev, hconv⟩
      simp only [List.drop_left, List.mem_singleton] at hev
      subst hev
      simp [Event.isConvergence, Event.isFetch, Event.isReannounce, Event.isDelete,
        Event.isSleep] at hconv

/-- Witness of C8: a paused action with a hash: the submission is the whole run. -/
theorem C8_witness :
    qbittorrent (scriptedRemote (.ok []) (.ok ⟨0⟩) none (fun _ => .ok [])
          (fun _ => none) none)
        (sampleService ⟨false, 0, false, 0⟩) (handleOf (sampleClient ⟨false, 0, false, 0⟩))
        { sampleAction with Paused := true } "a.torrent" "abc" [] =
      (none, [.AddTorrentFromFile "a.torrent" [("paused", "true")]]) :=
  (C8_convergence_only_if_unpaused_with_hash (scriptedRemote (.ok []) (.ok ⟨0⟩) none
      (fun _ => .ok []) (fun _ => none) none)
    (sampleService ⟨false, 0, false, 0⟩) (handleOf (sampleClient ⟨false, 0, false, 0⟩))
    { sampleAction with Paused := true } "a.torrent" "abc" [] rfl).2.1 (Or.inl rfl)

/-! ## The tracker scan -/

/-- The scan succeeds exactly when some entry that is not disabled is working. -/
theorem findTrackerStatus_iff (slice : List TorrentTracker) :
    findTrackerStatus slice = true ↔
      ∃ item ∈ slice, item.Status ≠ TrackerStatusDisabled ∧ item.Status = TrackerStatusOK := by
  induction slice with
  | nil => simp [findTrackerStatus]
  | cons item rest ih =>
    unfold findTrackerStatus
    by_cases hd : item.Status = TrackerStatusDisabled
    · rw [if_pos hd, ih]
      constructor
      · rintro ⟨x, hx, hx2⟩
        exact ⟨x, List.mem_cons_of_mem _ hx, hx2⟩
      · rintro ⟨x, hx, hx2⟩
        rcases List.mem_cons.mp hx with h | h
        · subst h
          exact absurd hd hx2.1
        · exact ⟨x, h, hx2⟩
    · rw [if_neg hd]
      by_cases hok : item.Status = TrackerStatusOK
      · rw [if_pos hok]
        exact iff_of_true rfl ⟨item, List.mem_cons_self _ _, hd, hok⟩
      · rw [if_neg hok, ih]
        constructor
        · rintro ⟨x, hx, hx2⟩
          exact ⟨x, List.mem_cons_of_mem _ hx, hx2⟩
        · rintro ⟨x, hx, hx2⟩
          rcases List.mem_cons.mp hx with h | h
          · subst h
            exact absurd hx2.2 hok
          · exact ⟨x, h, hx2⟩

/-- C9: `findTrackerStatus` returns true if and only if some entry that is not disabled
has status working (`TrackerStatusOK`).  Hence a list of disabled entries only, and the
empty list, yield false; a list with at least one working entry yields true whatever the
other entries and their order; and the list disabled, not contacted, working yields
true. -/
theorem C9_findTrackerStatus_spec (slice : List TorrentTracker) :
    (findTrackerStatus slice = true ↔
        ∃ item ∈ slice, item.Status ≠ TrackerStatusDisabled ∧
          item.Status = TrackerStatusOK) ∧
      ((∀ item ∈ slice, item.Status = TrackerStatusDisabled) →
        findTrackerStatus slice = false) ∧
      findTrackerStatus [] = false ∧
      ((∃ item ∈ slice, item.Status = TrackerStatusOK) → findTrackerStatus slice = true) ∧
      findTrackerStatus [⟨TrackerStatusDisabled⟩, ⟨TrackerStatusNotContacted⟩,
        ⟨TrackerStatusOK⟩] = true := by
  refine ⟨findTrackerStatus_iff slice, ?_, rfl, ?_, by decide⟩
  · intro hall
    cases hf : findTrackerStatus slice with
    | false => rfl
    | true =>
      obtain ⟨item, hmem, hnd, _⟩ := (findTrackerStatus_iff slice).mp hf
      exact absurd (hall item hmem) hnd
  · rintro ⟨item, hmem, hok⟩
    refine (findTrackerStatus_iff slice).mpr ⟨item, hmem, ?_, hok⟩
    rw [hok]
    decide

/-- Witness of C9: two disabled entries do not converge. -/
theorem C9_witness :
    findTrackerStatus [⟨TrackerStatusDisabled⟩, ⟨TrackerStatusDisabled⟩] = false :=
  (C9_findTrackerStatus_spec [⟨TrackerStatusDisabled⟩, ⟨TrackerStatusDisabled⟩]).2.1
    (by decide)

/-! ## Convergence -/

/-- The history at a poll extends the starting trace. -/
theorem historyAtPoll_eq_append (tr : Trace) (hash : String) (i : Nat) :
    historyAtPoll tr hash i = tr ++ historyAtPoll [] hash i := by
  induction i with
  | zero => simp [historyAtPoll]
  | succ i ih =>
    rw [historyAtPoll, ih]
    simp [historyAtPoll]

/-- Before poll `i` there have been `i` fetches. -/
theorem countP_isFetch_historyAtPoll (hash : String) (i : Nat) :
    (historyAtPoll [] hash i).countP Event.isFetch = i := by
  induction i with
  | zero => rfl
  | succ i ih =>
    rw [historyAtPoll, List.countP_append, ih]
    rfl

/-- Before poll `i` there have been `i` re-announce calls. -/
theorem countP_isReannounce_historyAtPoll (hash : String) (i : Nat) :
    (historyAtPoll [] hash i).countP Event.isReannounce = i := by
  induction i with
  | zero => rfl
  | succ i ih =>
    rw [historyAtPoll, List.countP_append, ih]
    rfl

/-- Before any poll there has been no delete call. -/
theorem countP_isDelete_historyAtPoll (hash : String) (i : Nat) :
    (historyAtPoll [] hash i).countP Event.isDelete = 0 := by
  induction i with
  | zero => rfl
  | succ i ih =>
    rw [historyAtPoll, List.countP_append, ih]
    rfl

/-- The loop entered at attempt `j` with the history of poll `j`, when the polls before
poll `k` show no working tracker, their re-announces succeed and poll `k` shows a working
tracker: it returns nil right after the fetch of poll `k`. -/
theorem checkTrackerStatusLoop_converges (R : Remote) (qb : Client) (hash : String)
    (tr : Trace) (announceOK : Bool) (k : Nat) (hk : k < ReannounceMaxAttempts)
    (hnot : ∀ i, i < k → ∃ ts, R.GetTorrentTrackers (historyAtPoll tr hash i) qb hash = .ok ts ∧
      findTrackerStatus ts = false)
    (hre : ∀ i, i < k → R.ReAnnounceTorrents
      (historyAtPoll tr hash i ++ [.GetTorrentTrackers hash]) qb [hash] = none)
    (hwork : ∃ ts, R.GetTorrentTrackers (historyAtPoll tr hash k) qb hash = .ok ts ∧
      findTrackerStatus ts = true) :
    ∀ d j : Nat, j + d = k →
      checkTrackerStatusLoop R qb hash announceOK j (historyAtPoll tr hash j) =
        (.returned none, historyAtPoll tr hash k ++ [.GetTorrentTrackers hash]) := by
  intro d
  induction d with
  | zero =>
    intro j hj
    have hjk : j = k := by omega
    subst hjk
    obtain ⟨ts, hts, hw⟩ := hwork
    rw [checkTrackerStatusLoop, if_pos hk, hts]
    simp only [hw, if_true]
  | succ d ih =>
    intro j hj
    have hjk : j < k := by omega
    have hj50 : j < ReannounceMaxAttempts := by omega
    obtain ⟨ts, hts, hw⟩ := hnot j hjk
    rw [checkTrackerStatusLoop, if_pos hj50, hts]
    simp only [hw, Bool.false_eq_true, if_false, hre j hjk]
    have hnext : historyAtPoll tr hash j ++ [.GetTorrentTrackers hash] ++
        [.ReAnnounceTorrents [hash]] ++ [.Sleep (ReannounceInterval * Millisecond)] =
        historyAtPoll tr hash (j + 1) := by
      simp [historyAtPoll, pollCycle]
    rw [hnext]
    exact ih (j + 1) (by omega)

/-- C10: for `k < 50`, if the first `k` tracker-status polls each show no working tracker,
poll `k+1` shows one, and the `k` re-announce calls succeed, then `checkTrackerStatus`
returns nil right after that poll: the run is the initial sleep, `k` cycles of fetch,
re-announce and interval sleep, and one last fetch, so it makes exactly `k+1` fetches,
exactly `k` re-announce calls (none for `k = 0`) and no delete call. -/
theorem C10_converges_after_k_retries (R : Remote) (qb : Client) (hash : String)
    (tr : Trace) (k : Nat) (hk : k < 50)
    (hnot : ∀ i, i < k → ∃ ts, R.GetTorrentTrackers (historyAtPoll tr hash i) qb hash = .ok ts ∧
      findTrackerStatus ts = false)
    (hre : ∀ i, i < k → R.ReAnnounceTorrents
      (historyAtPoll tr hash i ++ [.GetTorrentTrackers hash]) qb [hash] = none)
    (hwork : ∃ ts, R.GetTorrentTrackers (historyAtPoll tr hash k) qb hash = .ok ts ∧
      findTrackerStatus ts = true) :
    checkTrackerStatus R qb hash tr =
        (none, historyAtPoll tr hash k ++ [.GetTorrentTrackers hash]) ∧
      ∃ new : Trace, (checkTrackerStatus R qb hash tr).2 = tr ++ new ∧
        new.getLast? = some (.GetTorrentTrackers hash) ∧
        new.countP Event.isFetch = k + 1 ∧
        new.countP Event.isReannounce = k ∧
        new.countP Event.isDelete = 0 := by
  have hloop := checkTrackerStatusLoop_converges R qb hash tr false k hk hnot hre hwork k 0
    (by omega)
  have hres : checkTrackerStatus R qb hash tr =
      (none, historyAtPoll tr hash k ++ [.GetTorrentTrackers hash]) := by
    unfold checkTrackerStatus
    simp only []
    have h0 : tr ++ [.Sleep (6 * Second)] = historyAtPoll tr hash 0 := rfl
    rw [h0, hloop]
  refine ⟨hres, historyAtPoll [] hash k ++ [.GetTorrentTrackers hash], ?_, ?_, ?_, ?_, ?_⟩
  · rw [hres, ← List.append_assoc, ← historyAtPoll_eq_append]
  · simp
  · rw [List.countP_append, countP_isFetch_historyAtPoll]
    rfl
  · rw [List.countP_append, countP_isReannounce_historyAtPoll]
    rfl
  · rw [List.countP_append, countP_isDelete_historyAtPoll]
    rfl

/-- Witness of C10 for `k = 2`: three fetches, two re-announces, no delete. -/
theorem C10_witness :
    (2 < 50) ∧
      checkTrackerStatus convergingRemote (handleOf (sampleClient ⟨false, 0, false, 0⟩)) "abc"
          [] =
        (none, [.Sleep 6000, .GetTorrentTrackers "abc", .ReAnnounceTorrents ["abc"],
          .Sleep 7000, .GetTorrentTrackers "abc", .ReAnnounceTorrents ["abc"], .Sleep 7000,
          .GetTorrentTrackers "abc"]) :=
  ⟨by decide, (C10_converges_after_k_retries convergingRemote
    (handleOf (sampleClient ⟨false, 0, false, 0⟩)) "abc" [] 2 (by decide)
    (fun i hi => by
      interval_cases i
      · exact ⟨_, rfl, by decide⟩
      · exact ⟨_, rfl, by decide⟩)
    (fun i hi => by
      interval_cases i <;> rfl)
    ⟨_, rfl, by decide⟩).1⟩

/-! ## All runs of the convergence loop -/

/-- What it means for an attempt to go on to the next one. -/
theorem attemptRetries_iff (R : Remote) (qb : Client) (hash : String) (tr : Trace) (i : Nat) :
    attemptRetries R qb hash tr i = true ↔
      ∃ ts, R.GetTorrentTrackers (historyAtPoll tr hash i) qb hash = .ok ts ∧
        findTrackerStatus ts = false ∧
        R.ReAnnounceTorrents (historyAtPoll tr hash i ++ [.GetTorrentTrackers hash])
          qb [hash] = none := by
  unfold attemptRetries
  cases hf : R.GetTorrentTrackers (historyAtPoll tr hash i) qb hash with
  | error err => simp
  | ok ts =>
    cases hr : R.ReAnnounceTorrents (historyAtPoll tr hash i ++ [.GetTorrentTrackers hash])
      qb [hash] <;> simp

/-- The history of the next poll, as the loop builds it. -/
theorem historyAtPoll_step (tr : Trace) (hash : String) (j : Nat) :
    historyAtPoll tr hash j ++ [.GetTorrentTrackers hash] ++ [.ReAnnounceTorrents [hash]] ++
        [.Sleep (ReannounceInterval * Millisecond)] = historyAtPoll tr hash (j + 1) := by
  simp [historyAtPoll, pollCycle]

/-- One turn of the loop when the attempt goes on to the next one. -/
theorem checkTrackerStatusLoop_retry (R : Remote) (qb : Client) (hash : String) (tr : Trace)
    (announceOK : Bool) (j : Nat) (hj : j < ReannounceMaxAttempts)
    (hr : attemptRetries R qb hash tr j = true) :
    checkTrackerStatusLoop R qb hash announceOK j (historyAtPoll tr hash j) =
      checkTrackerStatusLoop R qb hash announceOK (j + 1) (historyAtPoll tr hash (j + 1)) := by
  obtain ⟨ts, hts, hw, hre⟩ := (attemptRetries_iff R qb hash tr j).mp hr
  rw [checkTrackerStatusLoop, if_pos hj, hts]
  simp only [hw, Bool.false_eq_true, if_false, hre]
  rw [historyAtPoll_step]

/-- Several turns of the loop when the attempts from `j` up to `k` all go on. -/
theorem checkTrackerStatusLoop_skip (R : Remote) (qb : Client) (hash : String) (tr : Trace)
    (announceOK : Bool) (k : Nat) (hk : k ≤ ReannounceMaxAttempts) :
    ∀ d j : Nat, j + d = k → (∀ i, j ≤ i → i < k → attemptRetries R qb hash tr i = true) →
      checkTrackerStatusLoop R qb hash announceOK j (historyAtPoll tr hash j) =
        checkTrackerStatusLoop R qb hash announceOK k (historyAtPoll tr hash k) := by
  intro d
  induction d with
  | zero =>
    intro j hj _
    have hjk : j = k := by omega
    rw [hjk]
  | succ d ih =>
    intro j hj hall
    rw [checkTrackerStatusLoop_retry R qb hash tr announceOK j (by omega)
      (hall j (Nat.le_refl j) (by omega))]
    exact ih (j + 1) (by omega) (fun i h1 h2 => hall i (by omega) h2)

/-- The last turn of the loop, when attempt `k` does not go on. -/
theorem checkTrackerStatusLoop_last (R : Remote) (qb : Client) (hash : String) (tr : Trace)
    (announceOK : Bool) (k : Nat) (hk : k < ReannounceMaxAttempts)
    (hlast : attemptRetries R qb hash tr k = false) :
    checkTrackerStatusLoop R qb hash announceOK k (historyAtPoll tr hash k) =
      (.returned (lastAttempt R qb hash tr k).1, (lastAttempt R qb hash tr k).2) := by
  unfold attemptRetries at hlast
  unfold lastAttempt
  rw [checkTrackerStatusLoop, if_pos hk]
  cases hf : R.GetTorrentTrackers (historyAtPoll tr hash k) qb hash with
  | error err => rfl
  | ok ts =>
    rw [hf] at hlast
    simp only at hlast
    cases hw : findTrackerStatus ts with
    | true => simp [hw]
    | false =>
      rw [hw] at hlast
      cases hre : R.ReAnnounceTorrents (historyAtPoll tr hash k ++ [.GetTorrentTrackers hash])
        qb [hash] with
      | none =>
        rw [hre] at hlast
        exact absurd hlast (by decide)
      | some err => simp [hw, hre]

/-- Every run of `checkTrackerStatus` is of one of two kinds.  Either all 50 attempts go
on: the run is the history of a poll number 50, the 30 s sleep and the delete call, and
the result is the answer of the delete.  Or some attempt `k < 50` is the last one. -/
theorem checkTrackerStatus_run (R : Remote) (qb : Client) (hash : String) (tr : Trace) :
    ((∀ i, i < ReannounceMaxAttempts → attemptRetries R qb hash tr i = true) ∧
        checkTrackerStatus R qb hash tr =
          (R.DeleteTorrents (historyAtPoll tr hash ReannounceMaxAttempts ++
              [.Sleep (30 * Second)]) qb [hash] false,
            historyAtPoll tr hash ReannounceMaxAttempts ++
              [.Sleep (30 * Second), .DeleteTorrents [hash] false])) ∨
      (∃ k, k < ReannounceMaxAttempts ∧ (∀ i, i < k → attemptRetries R qb hash tr i = true) ∧
        attemptRetries R qb hash tr k = false ∧
        checkTrackerStatus R qb hash tr = lastAttempt R qb hash tr k) := by
  have hsearch : ∀ n, n ≤ ReannounceMaxAttempts →
      (∀ i, i < n → attemptRetries R qb hash tr i = true) ∨
      (∃ k, k < n ∧ (∀ i, i < k → attemptRetries R qb hash tr i = true) ∧
        attemptRetries R qb hash tr k = false) := by
    intro n
    induction n with
    | zero =>
      intro _
      exact Or.inl (fun i hi => absurd hi (Nat.not_lt_zero i))
    | succ n ih =>
      intro hn
      rcases ih (by omega) with hall | ⟨k, hk, hall, hlast⟩
      · cases hr : attemptRetries R qb hash tr n with
        | true =>
          left
          intro i hi
          rcases Nat.lt_succ_iff_lt_or_eq.mp hi with h | h
          · exact hall i h
          · rw [h]; exact hr
        | false => exact Or.inr ⟨n, Nat.lt_succ_self n, hall, hr⟩
      · exact Or.inr ⟨k, Nat.lt_succ_of_lt hk, hall, hlast⟩
  have h0 : ∀ t : Trace, t ++ [Event.Sleep (6 * Second)] = historyAtPoll t hash 0 :=
    fun _ => rfl
  rcases hsearch ReannounceMaxAttempts (Nat.le_refl _) with hall | ⟨k, hk, hall, hlast⟩
  · left
    refine ⟨hall, ?_⟩
    have hloop := checkTrackerStatusLoop_skip R qb hash tr false ReannounceMaxAttempts
      (Nat.le_refl _) ReannounceMaxAttempts 0 (by omega) (fun i _ h => hall i h)
    have hend : checkTrackerStatusLoop R qb hash false ReannounceMaxAttempts
        (historyAtPoll tr hash ReannounceMaxAttempts) =
        (.finished false ReannounceMaxAttempts, historyAtPoll tr hash ReannounceMaxAttempts) := by
      rw [checkTrackerStatusLoop, if_neg (Nat.lt_irrefl _)]
    unfold checkTrackerStatus
    simp only []
    rw [h0, hloop, hend]
    simp only [Bool.not_false, if_true]
    cases R.DeleteTorrents (historyAtPoll tr hash ReannounceMaxAttempts ++
      [.Sleep (30 * Second)]) qb [hash] false <;> simp
  · right
    refine ⟨k, hk, hall, hlast, ?_⟩
    have hloop := checkTrackerStatusLoop_skip R qb hash tr false k (Nat.le_of_lt hk) k 0
      (by omega) (fun i _ h => hall i h)
    unfold checkTrackerStatus
    simp only []
    rw [h0, hloop, checkTrackerStatusLoop_last R qb hash tr false k hk hlast]

/-- The remote calls before poll `i`: `i` times a fetch followed by a re-announce. -/
theorem remoteCalls_historyAtPoll (hash : String) (i : Nat) :
    remoteCalls (historyAtPoll [] hash i) =
      (List.replicate i [Event.GetTorrentTrackers hash, .ReAnnounceTorrents [hash]]).flatten := by
  induction i with
  | zero => rfl
  | succ i ih =>
    rw [historyAtPoll]
    unfold remoteCalls at ih ⊢
    rw [List.filter_append, ih, List.replicate_succ']
    simp [pollCycle, Event.isSleep]

/-- The time slept in two traces put end to end. -/
theorem totalSleep_append (a b : Trace) : totalSleep (a ++ b) = totalSleep a + totalSleep b := by
  induction a with
  | nil => simp [totalSleep]
  | cons e rest ih =>
    cases e <;> simp [totalSleep, ih, Nat.add_assoc]

/-- The time slept before poll `i`: 6000 ms and 7000 ms per earlier attempt. -/
theorem totalSleep_historyAtPoll (hash : String) (i : Nat) :
    totalSleep (historyAtPoll [] hash i) = 6000 + 7000 * i := by
  induction i with
  | zero => rfl
  | succ i ih =>
    rw [historyAtPoll, totalSleep_append, ih]
    simp only [pollCycle, totalSleep, ReannounceInterval, Millisecond]
    omega

/-- The events of a run of `checkTrackerStatus`, in the two kinds of run: after 50
attempts that go on, the 30 s sleep and the delete call; or the attempts before a last
attempt `k`, its fetch, and its re-announce call if the poll showed no working tracker. -/
theorem checkTrackerStatus_events (R : Remote) (qb : Client) (hash : String) (tr : Trace) :
    ∃ new : Trace, (checkTrackerStatus R qb hash tr).2 = tr ++ new ∧
      (((∀ i, i < 50 → attemptRetries R qb hash tr i = true) ∧
          new = historyAtPoll [] hash 50 ++
            [.Sleep (30 * Second), .DeleteTorrents [hash] false]) ∨
        (∃ k, k < 50 ∧ (∀ i, i < k → attemptRetries R qb hash tr i = true) ∧
          attemptRetries R qb hash tr k = false ∧
          (new = historyAtPoll [] hash k ++ [.GetTorrentTrackers hash] ∨
            (pollConverges R qb hash tr k = false ∧
              new = historyAtPoll [] hash k ++
                [.GetTorrentTrackers hash, .ReAnnounceTorrents [hash]])))) := by
  have hrun := checkTrackerStatus_run R qb hash tr
  simp only [ReannounceMaxAttempts] at hrun
  rcases hrun with ⟨hall, hres⟩ | ⟨k, hk, hall, hlast, hres⟩
  · refine ⟨_, ?_, Or.inl ⟨hall, Eq.refl _⟩⟩
    rw [hres, ← List.append_assoc, ← historyAtPoll_eq_append]
  · rw [hres]
    cases hf : R.GetTorrentTrackers (historyAtPoll tr hash k) qb hash with
    | error err =>
      refine ⟨historyAtPoll [] hash k ++ [.GetTorrentTrackers hash], ?_,
        Or.inr ⟨k, hk, hall, hlast, Or.inl rfl⟩⟩
      simp only [lastAttempt, hf]
      rw [← List.append_assoc, ← historyAtPoll_eq_append]
    | ok ts =>
      cases hw : findTrackerStatus ts with
      | true =>
        refine ⟨historyAtPoll [] hash k ++ [.GetTorrentTrackers hash], ?_,
          Or.inr ⟨k, hk, hall, hlast, Or.inl rfl⟩⟩
        simp only [lastAttempt, hf, hw, if_true]
        rw [← List.append_assoc, ← historyAtPoll_eq_append]
      | false =>
        have hpc : pollConverges R qb hash tr k = false := by
          simp only [pollConverges, hf, hw]
        refine ⟨historyAtPoll [] hash k ++
          [.GetTorrentTrackers hash, .ReAnnounceTorrents [hash]], ?_,
          Or.inr ⟨k, hk, hall, hlast, Or.inr ⟨hpc, rfl⟩⟩⟩
        simp only [lastAttempt, hf, hw, Bool.false_eq_true, if_false]
        rw [← List.append_assoc, ← historyAtPoll_eq_append]

/-! ## Abandoned runs and failing runs -/

/-- The run in which all 50 attempts go on: the result is the answer of the delete call,
made after the 30 s sleep on the history of a poll number 50. -/
theorem checkTrackerStatus_abandoned (R : Remote) (qb : Client) (hash : String) (tr : Trace)
    (hall : ∀ i, i < 50 → attemptRetries R qb hash tr i = true) :
    checkTrackerStatus R qb hash tr =
      (R.DeleteTorrents (historyAtPoll tr hash 50 ++ [.Sleep (30 * Second)]) qb [hash] false,
        historyAtPoll tr hash 50 ++ [.Sleep (30 * Second), .DeleteTorrents [hash] false]) := by
  have hrun := checkTrackerStatus_run R qb hash tr
  simp only [ReannounceMaxAttempts] at hrun
  rcases hrun with ⟨_, hres⟩ | ⟨k, hk, _, hlast, _⟩
  · exact hres
  · rw [hall k hk] at hlast
    exact absurd hlast (by decide)

/-- The run whose attempt `k` is the last one. -/
theorem checkTrackerStatus_stops (R : Remote) (qb : Client) (hash : String) (tr : Trace)
    (k : Nat) (hk : k < 50) (hall : ∀ i, i < k → attemptRetries R qb hash tr i = true)
    (hlast : attemptRetries R qb hash tr k = false) :
    checkTrackerStatus R qb hash tr = lastAttempt R qb hash tr k := by
  have h0 : tr ++ [Event.Sleep (6 * Second)] = historyAtPoll tr hash 0 := rfl
  have hloop := checkTrackerStatusLoop_skip R qb hash tr false k (Nat.le_of_lt hk) k 0
    (by omega) (fun i _ h => hall i h)
  unfold checkTrackerStatus
  simp only []
  rw [h0, hloop, checkTrackerStatusLoop_last R qb hash tr false k hk hlast]

/-- C11: if every one of the 50 polls shows no working tracker and every remote call
succeeds, `checkTrackerStatus` makes exactly 50 tracker-status fetches and exactly 50
re-announce calls, alternating fetch and re-announce, then (after the 30 s sleep, with no
fetch in between) exactly one delete call for the single hash with the delete-files flag
false, and returns nil.  In every run the number of re-announce calls is at most 50. -/
theorem C11_abandoned_after_fifty_attempts (R : Remote) (qb : Client) (hash : String)
    (tr : Trace) :
    ((∀ i, i < 50 → attemptRetries R qb hash tr i = true) →
        R.DeleteTorrents (historyAtPoll tr hash 50 ++ [.Sleep (30 * Second)]) qb [hash] false =
          none →
        checkTrackerStatus R qb hash tr =
            (none, historyAtPoll tr hash 50 ++
              [.Sleep (30 * Second), .DeleteTorrents [hash] false]) ∧
          ∃ new : Trace, (checkTrackerStatus R qb hash tr).2 = tr ++ new ∧
            remoteCalls new =
              (List.replicate 50
                [Event.GetTorrentTrackers hash, .ReAnnounceTorrents [hash]]).flatten ++
                [.DeleteTorrents [hash] false] ∧
            new.countP Event.isFetch = 50 ∧
            new.countP Event.isReannounce = 50 ∧
            new.countP Event.isDelete = 1) ∧
      (∃ new : Trace, (checkTrackerStatus R qb hash tr).2 = tr ++ new ∧
        new.countP Event.isReannounce ≤ 50) := by
  constructor
  · intro hall hdel
    have hres := checkTrackerStatus_abandoned R qb hash tr hall
    rw [hdel] at hres
    refine ⟨hres, historyAtPoll [] hash 50 ++
      [.Sleep (30 * Second), .DeleteTorrents [hash] false], ?_, ?_, ?_, ?_, ?_⟩
    · rw [hres, ← List.append_assoc, ← historyAtPoll_eq_append]
    · unfold remoteCalls
      rw [List.filter_append]
      have h := remoteCalls_historyAtPoll hash 50
      unfold remoteCalls at h
      rw [h]
      rfl
    · rw [List.countP_append, countP_isFetch_historyAtPoll]
      rfl
    · rw [List.countP_append, countP_isReannounce_historyAtPoll]
      rfl
    · rw [List.countP_append, countP_isDelete_historyAtPoll]
      rfl
  · obtain ⟨new, hnew, hshape⟩ := checkTrackerStatus_events R qb hash tr
    refine ⟨new, hnew, ?_⟩
    rcases hshape with ⟨_, h⟩ | ⟨k, hk, _, _, h | ⟨_, h⟩⟩
    · rw [h, List.countP_append, countP_isReannounce_historyAtPoll]
      exact Nat.le_refl _
    · have hs : List.countP Event.isReannounce [Event.GetTorrentTrackers hash] = 0 := rfl
      rw [h, List.countP_append, countP_isReannounce_historyAtPoll, hs]
      omega
    · have hs : List.countP Event.isReannounce
          [Event.GetTorrentTrackers hash, .ReAnnounceTorrents [hash]] = 1 := rfl
      rw [h, List.countP_append, countP_isReannounce_historyAtPoll, hs]
      omega

/-- Witness of C11: the tracker stays not contacted for 50 polls and the delete
succeeds. -/
theorem C11_witness :
    (∀ i, i < 50 → attemptRetries (stuckRemote none) sampleHandle "abc" [] i = true) ∧
      checkTrackerStatus (stuckRemote none) sampleHandle "abc" [] =
        (none, historyAtPoll [] "abc" 50 ++
          [.Sleep (30 * Second), .DeleteTorrents ["abc"] false]) :=
  ⟨fun _ _ => rfl,
    ((C11_abandoned_after_fifty_attempts (stuckRemote none) sampleHandle "abc" []).1
      (fun _ _ => rfl) rfl).1⟩

/-- The trace of a run is the starting trace followed by the events of the run, which are
of one of the two kinds of `checkTrackerStatus_events`. -/
theorem convergenceEvents_shape (R : Remote) (qb : Client) (hash : String) (tr : Trace) :
    (checkTrackerStatus R qb hash tr).2 = tr ++ convergenceEvents R qb hash tr ∧
      (((∀ i, i < 50 → attemptRetries R qb hash tr i = true) ∧
          convergenceEvents R qb hash tr = historyAtPoll [] hash 50 ++
            [.Sleep (30 * Second), .DeleteTorrents [hash] false]) ∨
        (∃ k, k < 50 ∧ (∀ i, i < k → attemptRetries R qb hash tr i = true) ∧
          attemptRetries R qb hash tr k = false ∧
          (convergenceEvents R qb hash tr =
              historyAtPoll [] hash k ++ [.GetTorrentTrackers hash] ∨
            (pollConverges R qb hash tr k = false ∧
              convergenceEvents R qb hash tr = historyAtPoll [] hash k ++
                [.GetTorrentTrackers hash, .ReAnnounceTorrents [hash]])))) := by
  obtain ⟨new, hnew, hshape⟩ := checkTrackerStatus_events R qb hash tr
  have hev : convergenceEvents R qb hash tr = new := by
    unfold convergenceEvents
    rw [hnew, List.drop_left]
  rw [hev]
  exact ⟨hnew, hshape⟩

/-- C12: for every attempt `i < 50` that is reached (the attempts before it went on): if
its tracker-status fetch fails with error `e`, or its poll shows no working tracker and
its re-announce call fails with error `e`, `checkTrackerStatus` returns exactly `e` at
once: the failing call is the last event of the run, and the run has no delete call. -/
theorem C12_fetch_or_reannounce_failure_aborts (R : Remote) (qb : Client) (hash : String)
    (tr : Trace) (i : Nat) (e : Error) (hi : i < 50)
    (hbefore : ∀ j, j < i → attemptRetries R qb hash tr j = true) :
    (R.GetTorrentTrackers (historyAtPoll tr hash i) qb hash = .error e →
        checkTrackerStatus R qb hash tr =
            (some e, historyAtPoll tr hash i ++ [.GetTorrentTrackers hash]) ∧
          (convergenceEvents R qb hash tr).countP Event.isDelete = 0) ∧
      (∀ ts, R.GetTorrentTrackers (historyAtPoll tr hash i) qb hash = .ok ts →
        findTrackerStatus ts = false →
        R.ReAnnounceTorrents (historyAtPoll tr hash i ++ [.GetTorrentTrackers hash])
          qb [hash] = some e →
        checkTrackerStatus R qb hash tr =
            (some e, historyAtPoll tr hash i ++
              [.GetTorrentTrackers hash, .ReAnnounceTorrents [hash]]) ∧
          (convergenceEvents R qb hash tr).countP Event.isDelete = 0) := by
  constructor
  · intro hfail
    have hlast : attemptRetries R qb hash tr i = false := by
      simp only [attemptRetries, hfail]
    have hres := checkTrackerStatus_stops R qb hash tr i hi hbefore hlast
    simp only [lastAttempt, hfail] at hres
    refine ⟨hres, ?_⟩
    unfold convergenceEvents
    rw [hres, historyAtPoll_eq_append, List.append_assoc, List.drop_left, List.countP_append,
      countP_isDelete_historyAtPoll]
    rfl
  · intro ts hts hw hfail
    have hlast : attemptRetries R qb hash tr i = false := by
      simp only [attemptRetries, hts, hw, hfail]
      rfl
    have hres := checkTrackerStatus_stops R qb hash tr i hi hbefore hlast
    simp only [lastAttempt, hts, hw, hfail, Bool.false_eq_true, if_false] at hres
    refine ⟨hres, ?_⟩
    unfold convergenceEvents
    rw [hres, historyAtPoll_eq_append, List.append_assoc, List.drop_left, List.countP_append,
      countP_isDelete_historyAtPoll]
    rfl

/-- Witness of C12: three polls show a not yet contacted tracker, the fourth fetch fails. -/
theorem C12_witness :
    (3 < 50) ∧
      (failingPollRemote 3).GetTorrentTrackers (historyAtPoll [] "abc" 3) sampleHandle "abc" =
        .error "unreachable" ∧
      checkTrackerStatus (failingPollRemote 3) sampleHandle "abc" [] =
        (some "unreachable", historyAtPoll [] "abc" 3 ++ [.GetTorrentTrackers "abc"]) :=
  ⟨by decide, rfl,
    ((C12_fetch_or_reannounce_failure_aborts (failingPollRemote 3) sampleHandle "abc" [] 3
      "unreachable" (by decide)
      (fun j hj => by
        interval_cases j <;> rfl)).1 rfl).1⟩

/-- C13: when the attempt budget is exhausted without convergence (all 50 attempts go
on), the result of `checkTrackerStatus` is exactly the answer of the compensating delete
call: an error if and only if the delete fails, and then the delete's error; nil if the
delete succeeds. -/
theorem C13_exhaustion_result_is_delete_result (R : Remote) (qb : Client) (hash : String)
    (tr : Trace) (hall : ∀ i, i < 50 → attemptRetries R qb hash tr i = true) :
    (checkTrackerStatus R qb hash tr).1 =
        R.DeleteTorrents (historyAtPoll tr hash 50 ++ [.Sleep (30 * Second)]) qb [hash] false ∧
      ((checkTrackerStatus R qb hash tr).1 ≠ none ↔
        R.DeleteTorrents (historyAtPoll tr hash 50 ++ [.Sleep (30 * Second)]) qb [hash] false ≠
          none) ∧
      (∀ e, R.DeleteTorrents (historyAtPoll tr hash 50 ++ [.Sleep (30 * Second)]) qb [hash]
          false = some e → (checkTrackerStatus R qb hash tr).1 = some e) ∧
      (R.DeleteTorrents (historyAtPoll tr hash 50 ++ [.Sleep (30 * Second)]) qb [hash] false =
          none → (checkTrackerStatus R qb hash tr).1 = none) := by
  have hres := checkTrackerStatus_abandoned R qb hash tr hall
  have h1 : (checkTrackerStatus R qb hash tr).1 =
      R.DeleteTorrents (historyAtPoll tr hash 50 ++ [.Sleep (30 * Second)]) qb [hash] false := by
    rw [hres]
  refine ⟨h1, ?_, ?_, ?_⟩
  · rw [h1]
  · intro e he
    rw [h1, he]
  · intro he
    rw [h1, he]

/-- Witness of C13: the budget is exhausted and the delete fails with "gone". -/
theorem C13_witness :
    (∀ i, i < 50 → attemptRetries (stuckRemote (some "gone")) sampleHandle "abc" [] i = true) ∧
      (checkTrackerStatus (stuckRemote (some "gone")) sampleHandle "abc" []).1 = some "gone" :=
  ⟨fun _ _ => rfl,
    (C13_exhaustion_result_is_delete_result (stuckRemote (some "gone")) sampleHandle "abc" []
      (fun _ _ => rfl)).2.2.1 "gone" rfl⟩

/-! ## The values of the option map -/

/-- Lookup after overwriting the entries of `k`. -/
theorem Options.lookup_map_overwrite (m : Options) (k v k1 : String) :
    List.lookup k1 (m.map (fun p => if p.1 == k then (k, v) else p)) =
      if k1 = k then (if m.any (fun p => p.1 == k) then some v else none)
      else List.lookup k1 m := by
  induction m with
  | nil => simp
  | cons p rest ih =>
    obtain ⟨a, b⟩ := p
    simp only [List.map_cons, List.any_cons]
    by_cases hak : a = k
    · subst hak
      by_cases h1 : k1 = a
      · subst h1
        simp
      · have hne : (k1 == a) = false := by simpa using h1
        simpa [List.lookup_cons, hne, h1] using ih
    · have hne : (a == k) = false := by simpa using hak
      simp only [hne, Bool.false_eq_true, if_false, Bool.false_or]
      by_cases h1 : k1 = a
      · subst h1
        simp [hak]
      · have hne1 : (k1 == a) = false := by simpa using h1
        simp only [List.lookup_cons, hne1, ih]

/-- Value after an assignment: the assigned value at the assigned key, the old value at
every other key. -/
theorem Options.get_set (m : Options) (k v k1 : String) :
    (m.set k v).get k1 = if k1 = k then some v else m.get k1 := by
  unfold Options.set Options.get
  split
  · rename_i hany
    rw [Options.lookup_map_overwrite, if_pos hany]
  · rename_i hany
    rw [List.lookup_append]
    by_cases h1 : k1 = k
    · subst h1
      have hnone : List.lookup k1 m = none := by
        rw [List.lookup_eq_none_iff]
        intro p hp
        simp only [List.any_eq_true, beq_iff_eq, not_exists, not_and] at hany
        have := hany p hp
        simp only [bne_iff_ne, ne_eq]
        exact fun h => this h.symm
      simp [hnone]
    · have hne : (k1 == k) = false := by simpa using h1
      simp [List.lookup_cons, hne, h1]

/-- Value after a guarded assignment. -/
theorem Options.get_ite_set (c : Prop) [Decidable c] (m : Options) (k v k1 : String) :
    Options.get (if c then m.set k v else m) k1 =
      if c ∧ k1 = k then some v else m.get k1 := by
  by_cases hc : c
  · simp [hc, Options.get_set]
  · simp [hc]

/-- The value of every key of the option map of lines 19-39. -/
theorem qbittorrentOptions_get (action : Action) (k : String) :
    (qbittorrentOptions action).get k =
      if action.LimitDownloadSpeed > 0 ∧ k = "dlLimit" then
        some (FormatInt action.LimitDownloadSpeed 10)
      else if action.LimitUploadSpeed > 0 ∧ k = "upLimit" then
        some (FormatInt action.LimitUploadSpeed 10)
      else if action.Tags ≠ "" ∧ k = "tags" then some action.Tags
      else if action.Category ≠ "" ∧ k = "category" then some action.Category
      else if action.SavePath ≠ "" ∧ k = "autoTMM" then some "false"
      else if action.SavePath ≠ "" ∧ k = "savepath" then some action.SavePath
      else if action.Paused = true ∧ k = "paused" then some "true"
      else none := by
  have h3 := fun m : Options =>
    Options.get_ite_set (action.Category ≠ "") m "category" action.Category k
  have h4 := fun m : Options =>
    Options.get_ite_set (action.Tags ≠ "") m "tags" action.Tags k
  have h5 := fun m : Options => Options.get_ite_set (action.LimitUploadSpeed > 0) m
    "upLimit" (FormatInt action.LimitUploadSpeed 10) k
  have h6 := fun m : Options => Options.get_ite_set (action.LimitDownloadSpeed > 0) m
    "dlLimit" (FormatInt action.LimitDownloadSpeed 10) k
  have hnil : Options.get [] k = none := rfl
  unfold qbittorrentOptions
  simp only []
  rw [h6, h5, h4, h3]
  clear h3 h4 h5 h6
  have hinner : Options.get
      (if action.SavePath ≠ "" then
        ((if action.Paused = true then Options.set [] "paused" "true" else []).set "savepath"
          action.SavePath).set "autoTMM" "false"
      else if action.Paused = true then Options.set [] "paused" "true" else []) k =
      if action.SavePath ≠ "" ∧ k = "autoTMM" then some "false"
      else if action.SavePath ≠ "" ∧ k = "savepath" then some action.SavePath
      else if action.Paused = true ∧ k = "paused" then some "true"
      else none := by
    by_cases hs : action.SavePath ≠ ""
    · rw [if_pos hs, Options.get_set, Options.get_set, Options.get_ite_set, hnil]
      simp only [ne_eq, hs, not_false_eq_true, true_and]
    · rw [if_neg hs, Options.get_ite_set, hnil]
      simp only [hs, false_and, if_false]
  rw [hinner]

/-! ## Decimal strings -/

/-- The value of the digit character of a number below ten. -/
theorem digitValue_digitChar (m : Nat) (h : m < 10) : digitValue (Nat.digitChar m) = some m := by
  interval_cases m <;> rfl

/-- Reading the digits written by `Nat.toDigitsCore` in front of `ds` is reading `ds` from
the number written. -/
theorem parseDigits_toDigitsCore :
    ∀ (f n : Nat) (ds : List Char), n < f →
      parseDigits (Nat.toDigitsCore 10 f n ds) 0 = parseDigits ds n := by
  intro f
  induction f with
  | zero =>
    intro n ds h
    exact absurd h (Nat.not_lt_zero n)
  | succ f ih =>
    intro n ds h
    have hmod : digitValue (Nat.digitChar (n % 10)) = some (n % 10) :=
      digitValue_digitChar (n % 10) (Nat.mod_lt n (by decide))
    unfold Nat.toDigitsCore
    simp only []
    by_cases hz : n / 10 = 0
    · rw [if_pos hz]
      have hn : n % 10 = n := by omega
      simp only [parseDigits, Nat.zero_mul, Nat.zero_add]
      rw [hn] at hmod ⊢
      rw [hmod]
    · rw [if_neg hz, ih (n / 10) _ (by omega)]
      have hn : n / 10 * 10 + n % 10 = n := by omega
      simp only [parseDigits, hmod, hn]

/-- Reading the decimal digits of a number gives the number back. -/
theorem parseDigits_toDigits (n : Nat) : parseDigits (Nat.toDigits 10 n) 0 = some n := by
  unfold Nat.toDigits
  rw [parseDigits_toDigitsCore (n + 1) n [] (Nat.lt_succ_self n)]
  rfl

/-- Reading the base-10 form of a non-negative integer as a decimal integer gives the
integer back. -/
theorem parseDecimal_FormatInt (i : Int) (h : 0 ≤ i) : parseDecimal (FormatInt i 10) = some i := by
  have hp := parseDigits_toDigits i.natAbs
  unfold FormatInt
  rw [if_neg (not_lt.mpr h)]
  unfold parseDecimal
  simp only []
  cases hl : Nat.toDigits 10 i.natAbs with
  | nil =>
    rw [hl] at hp
    have h0 : i.natAbs = 0 := by
      simp only [parseDigits, Option.some.injEq] at hp
      exact hp.symm
    have : Nat.toDigits 10 0 = [] := by rw [← h0]; exact hl
    exact absurd this (by decide)
  | cons c cs =>
    rw [hl] at hp
    have hc : c ≠ '-' := by
      intro hc
      subst hc
      simp [parseDigits, digitValue] at hp
    have hh : ¬ ((c :: cs).head? = some '-') := by
      simpa using hc
    show (if (c :: cs).head? = some '-' then _
      else if (c :: cs) = [] then none
      else (parseDigits (c :: cs) 0).map (fun n : Nat => Int.ofNat n)) = some i
    rw [if_neg hh, if_neg (List.cons_ne_nil c cs), hp, Option.map_some']
    exact congrArg some (Int.natAbs_of_nonneg h)

/-- C14, as stated, fails on the action whose only option is the save path "/data": the
map holds the key "autoTMM", which is not among paused, savepath, autoManaged, category,
tags, upLimit, dlLimit, and it holds no key "autoManaged" although the save path is set. -/
theorem C14_counterexample :
    ¬ (∀ k ∈ (qbittorrentOptions { sampleAction with SavePath := "/data" }).keys,
        k ∈ ["paused", "savepath", "autoManaged", "category", "tags", "upLimit", "dlLimit"]) ∧
      ¬ (({ sampleAction with SavePath := "/data" } : Action).SavePath ≠ "" →
        (qbittorrentOptions { sampleAction with SavePath := "/data" }).get "autoManaged" =
          some "false") := by
  constructor
  · intro h
    exact absurd (h "autoTMM" (by decide)) (by decide)
  · intro h
    exact absurd (h (by decide)) (by decide)

/-- C14, amended: every key of the option map passed to the submission call is one of
paused, savepath, autoTMM, category, tags, upLimit, dlLimit; when `SavePath` is non-empty
the map holds savepath = `SavePath` and autoTMM = "false"; when set, upLimit and dlLimit
hold the base-10 string forms of `LimitUploadSpeed` and `LimitDownloadSpeed`, and reading
them as decimal integers gives the limits back; when set, paused holds "true". -/
theorem C14_option_keys_and_values (R : Remote) (s : service) (qbt : Client)
    (action : Action) (torrentFile hash : String) (tr : Trace) :
    (∃ rest : Trace, (qbittorrent R s qbt action torrentFile hash tr).2 =
        tr ++ .AddTorrentFromFile torrentFile (qbittorrentOptions action) :: rest) ∧
      (∀ k ∈ (qbittorrentOptions action).keys,
        k ∈ ["paused", "savepath", "autoTMM", "category", "tags", "upLimit", "dlLimit"]) ∧
      (action.SavePath ≠ "" →
        (qbittorrentOptions action).get "savepath" = some action.SavePath ∧
          (qbittorrentOptions action).get "autoTMM" = some "false") ∧
      (action.LimitUploadSpeed > 0 →
        (qbittorrentOptions action).get "upLimit" =
            some (FormatInt action.LimitUploadSpeed 10) ∧
          parseDecimal (FormatInt action.LimitUploadSpeed 10) =
            some action.LimitUploadSpeed) ∧
      (action.LimitDownloadSpeed > 0 →
        (qbittorrentOptions action).get "dlLimit" =
            some (FormatInt action.LimitDownloadSpeed 10) ∧
          parseDecimal (FormatInt action.LimitDownloadSpeed 10) =
            some action.LimitDownloadSpeed) ∧
      (action.Paused = true → (qbittorrentOptions action).get "paused" = some "true") := by
  obtain ⟨rest, hrest, _⟩ := qbittorrent_trace R s qbt action torrentFile hash tr
  refine ⟨⟨rest, hrest⟩, ?_, ?_, ?_, ?_, ?_⟩
  · intro k hk
    rw [qbittorrentOptions_keys] at hk
    simp only [List.mem_cons, List.mem_singleton, List.not_mem_nil, or_false]
    rcases hk with h | h | h | h | h | h | h
    · exact Or.inl h.1
    · exact Or.inr (Or.inl h.1)
    · exact Or.inr (Or.inr (Or.inl h.1))
    · exact Or.inr (Or.inr (Or.inr (Or.inl h.1)))
    · exact Or.inr (Or.inr (Or.inr (Or.inr (Or.inl h.1))))
    · exact Or.inr (Or.inr (Or.inr (Or.inr (Or.inr (Or.inl h.1)))))
    · exact Or.inr (Or.inr (Or.inr (Or.inr (Or.inr (Or.inr h.1)))))
  · intro hs
    constructor
    · rw [qbittorrentOptions_get]
      simp [hs]
    · rw [qbittorrentOptions_get]
      simp [hs]
  · intro hu
    refine ⟨?_, parseDecimal_FormatInt _ (le_of_lt hu)⟩
    rw [qbittorrentOptions_get]
    simp [hu]
  · intro hd
    refine ⟨?_, parseDecimal_FormatInt _ (le_of_lt hd)⟩
    rw [qbittorrentOptions_get]
    simp [hd]
  · intro hp
    rw [qbittorrentOptions_get]
    simp [hp]

/-- Witness of C14: save path "/data" and upload cap 1200: savepath = "/data", autoTMM =
"false", upLimit = "1200", which reads back as 1200. -/
theorem C14_witness :
    (1200 : Int) > 0 ∧
      (qbittorrentOptions { sampleAction with SavePath := "/data", LimitUploadSpeed := 1200 }).get
          "upLimit" = some "1200" ∧
      parseDecimal "1200" = some 1200 :=
  ⟨by decide, (C14_option_keys_and_values (gateRemote (.ok []) (.ok ⟨0⟩))
    (sampleService ⟨false, 0, false, 0⟩) sampleHandle
    { sampleAction with SavePath := "/data", LimitUploadSpeed := 1200 } "a.torrent" "abc"
    []).2.2.2.1 (by decide)⟩

/-! ## Converged runs and timing -/

/-- The history of a poll starts with the initial sleep. -/
theorem historyAtPoll_head (hash : String) (i : Nat) :
    ∃ rest : Trace, historyAtPoll [] hash i = Event.Sleep (6 * Second) :: rest := by
  induction i with
  | zero => exact ⟨[], rfl⟩
  | succ i ih =>
    obtain ⟨rest, hrest⟩ := ih
    exact ⟨rest ++ pollCycle hash, by rw [historyAtPoll, hrest]; rfl⟩

/-- The history of a later poll extends the history of an earlier one. -/
theorem historyAtPoll_extends (tr : Trace) (hash : String) (a : Nat) :
    ∀ d : Nat, ∃ rest : Trace, historyAtPoll tr hash (a + d) = historyAtPoll tr hash a ++ rest := by
  intro d
  induction d with
  | zero => exact ⟨[], by simp⟩
  | succ d ih =>
    obtain ⟨rest, hrest⟩ := ih
    refine ⟨rest ++ pollCycle hash, ?_⟩
    rw [← Nat.add_assoc, historyAtPoll, hrest, List.append_assoc]

/-- A poll that shows a working tracker ends the run. -/
theorem attemptRetries_of_pollConverges (R : Remote) (qb : Client) (hash : String)
    (tr : Trace) (k : Nat) (h : pollConverges R qb hash tr k = true) :
    attemptRetries R qb hash tr k = false := by
  unfold pollConverges at h
  unfold attemptRetries
  cases hf : R.GetTorrentTrackers (historyAtPoll tr hash k) qb hash with
  | error err => rfl
  | ok ts =>
    rw [hf] at h
    simp only at h
    simp [h]

/-- The run that converges on poll `k`: it returns nil right after the fetch of poll `k`. -/
theorem checkTrackerStatus_converged (R : Remote) (qb : Client) (hash : String) (tr : Trace)
    (k : Nat) (hk : k < 50) (hall : ∀ i, i < k → attemptRetries R qb hash tr i = true)
    (hconv : pollConverges R qb hash tr k = true) :
    checkTrackerStatus R qb hash tr =
        (none, historyAtPoll tr hash k ++ [.GetTorrentTrackers hash]) ∧
      convergenceEvents R qb hash tr = historyAtPoll [] hash k ++ [.GetTorrentTrackers hash] := by
  have hres := checkTrackerStatus_stops R qb hash tr k hk hall
    (attemptRetries_of_pollConverges R qb hash tr k hconv)
  have hlast : lastAttempt R qb hash tr k =
      (none, historyAtPoll tr hash k ++ [.GetTorrentTrackers hash]) := by
    unfold pollConverges at hconv
    unfold lastAttempt
    cases hf : R.GetTorrentTrackers (historyAtPoll tr hash k) qb hash with
    | error err =>
      rw [hf] at hconv
      simp at hconv
    | ok ts =>
      rw [hf] at hconv
      simp only at hconv
      simp [hconv]
  rw [hlast] at hres
  refine ⟨hres, ?_⟩
  unfold convergenceEvents
  rw [hres, historyAtPoll_eq_append, List.append_assoc, List.drop_left]

/-- The events of the run in which all 50 attempts go on. -/
theorem convergenceEvents_abandoned (R : Remote) (qb : Client) (hash : String) (tr : Trace)
    (hall : ∀ i, i < 50 → attemptRetries R qb hash tr i = true) :
    convergenceEvents R qb hash tr =
      historyAtPoll [] hash 50 ++ [.Sleep (30 * Second), .DeleteTorrents [hash] false] := by
  unfold convergenceEvents
  have hres := congrArg Prod.snd (checkTrackerStatus_abandoned R qb hash tr hall)
  rw [hres]
  simp only []
  rw [historyAtPoll_eq_append tr hash 50, List.append_assoc, List.drop_left]

/-- C15: with each sleep an event carrying its duration in milliseconds: every run of
`checkTrackerStatus` starts with a 6000 ms sleep, before any remote call; each attempt
that does not converge and whose re-announce succeeds is followed by a 7000 ms sleep; a
run that converges on poll `k+1` (`k < 50`) has slept exactly `6000 + 7000*k` ms; an
abandoned run sleeps a further 30000 ms after the 50th interval and before the delete
call, 386000 ms in all; and no run sleeps longer than that. -/
theorem C15_sleep_schedule (R : Remote) (qb : Client) (hash : String) (tr : Trace) :
    (∃ rest : Trace, convergenceEvents R qb hash tr = .Sleep 6000 :: rest) ∧
      (∀ i, i < 50 → (∀ j, j ≤ i → attemptRetries R qb hash tr j = true) →
        ∃ rest : Trace, (checkTrackerStatus R qb hash tr).2 =
          historyAtPoll tr hash i ++
            [.GetTorrentTrackers hash, .ReAnnounceTorrents [hash], .Sleep 7000] ++ rest) ∧
      (∀ k, k < 50 → (∀ i, i < k → attemptRetries R qb hash tr i = true) →
        pollConverges R qb hash tr k = true →
        totalSleep (convergenceEvents R qb hash tr) = 6000 + 7000 * k) ∧
      ((∀ i, i < 50 → attemptRetries R qb hash tr i = true) →
        convergenceEvents R qb hash tr =
            historyAtPoll [] hash 50 ++ [.Sleep 30000, .DeleteTorrents [hash] false] ∧
          totalSleep (historyAtPoll [] hash 50) = 6000 + 50 * 7000 ∧
          totalSleep (convergenceEvents R qb hash tr) = 386000) ∧
      totalSleep (convergenceEvents R qb hash tr) ≤ 386000 := by
  obtain ⟨hsplit, hshape⟩ := convergenceEvents_shape R qb hash tr
  have hfetch : totalSleep [Event.GetTorrentTrackers hash] = 0 := rfl
  have hboth : totalSleep [Event.GetTorrentTrackers hash, .ReAnnounceTorrents [hash]] = 0 := rfl
  have hgrace : totalSleep [Event.Sleep (30 * Second), .DeleteTorrents [hash] false] = 30000 :=
    rfl
  refine ⟨?_, ?_, ?_, ?_, ?_⟩
  · rcases hshape with ⟨_, h⟩ | ⟨k, _, _, _, h | ⟨_, h⟩⟩
    · obtain ⟨rest, hrest⟩ := historyAtPoll_head hash 50
      exact ⟨rest ++ [.Sleep (30 * Second), .DeleteTorrents [hash] false], by
        rw [h, hrest]; rfl⟩
    · obtain ⟨rest, hrest⟩ := historyAtPoll_head hash k
      exact ⟨rest ++ [.GetTorrentTrackers hash], by rw [h, hrest]; rfl⟩
    · obtain ⟨rest, hrest⟩ := historyAtPoll_head hash k
      exact ⟨rest ++ [.GetTorrentTrackers hash, .ReAnnounceTorrents [hash]], by
        rw [h, hrest]; rfl⟩
  · intro i hi hgo
    have hcycle : historyAtPoll tr hash i ++
        [.GetTorrentTrackers hash, .ReAnnounceTorrents [hash], .Sleep 7000] =
        historyAtPoll tr hash (i + 1) := rfl
    rw [hcycle]
    rcases hshape with ⟨_, h⟩ | ⟨k, _, _, hlast, h⟩
    · obtain ⟨rest, hrest⟩ := historyAtPoll_extends tr hash (i + 1) (50 - (i + 1))
      have hsum : i + 1 + (50 - (i + 1)) = 50 := by omega
      rw [hsum] at hrest
      refine ⟨rest ++ [.Sleep (30 * Second), .DeleteTorrents [hash] false], ?_⟩
      rw [hsplit, h, ← List.append_assoc, ← historyAtPoll_eq_append, hrest,
        List.append_assoc]
    · have hik : i < k := by
        by_contra hnot
        rw [hgo k (by omega)] at hlast
        exact absurd hlast (by decide)
      obtain ⟨rest, hrest⟩ := historyAtPoll_extends tr hash (i + 1) (k - (i + 1))
      have hsum : i + 1 + (k - (i + 1)) = k := by omega
      rw [hsum] at hrest
      rcases h with h | ⟨_, h⟩
      · refine ⟨rest ++ [.GetTorrentTrackers hash], ?_⟩
        rw [hsplit, h, ← List.append_assoc, ← historyAtPoll_eq_append, hrest,
          List.append_assoc]
      · refine ⟨rest ++ [.GetTorrentTrackers hash, .ReAnnounceTorrents [hash]], ?_⟩
        rw [hsplit, h, ← List.append_assoc, ← historyAtPoll_eq_append, hrest,
          List.append_assoc]
  · intro k hk hall hconv
    rw [(checkTrackerStatus_converged R qb hash tr k hk hall hconv).2, totalSleep_append,
      totalSleep_historyAtPoll, hfetch]
    rfl
  · intro hall
    have hev := convergenceEvents_abandoned R qb hash tr hall
    refine ⟨hev, totalSleep_historyAtPoll hash 50, ?_⟩
    rw [hev, totalSleep_append, totalSleep_historyAtPoll, hgrace]
  · rcases hshape with ⟨_, h⟩ | ⟨k, hk, _, _, h | ⟨_, h⟩⟩
    · rw [h, totalSleep_append, totalSleep_historyAtPoll, hgrace]
    · rw [h, totalSleep_append, totalSleep_historyAtPoll, hfetch]
      omega
    · rw [h, totalSleep_append, totalSleep_historyAtPoll, hboth]
      omega

/-- Witness of C15: convergence on the third poll after 6000 + 2 * 7000 ms of sleep. -/
theorem C15_witness :
    (2 < 50) ∧ pollConverges convergingRemote sampleHandle "abc" [] 2 = true ∧
      totalSleep (convergenceEvents convergingRemote sampleHandle "abc" []) = 20000 :=
  ⟨by decide, rfl,
    (C15_sleep_schedule convergingRemote sampleHandle "abc" []).2.2.1 2 (by decide)
      (fun i hi => by
        interval_cases i <;> rfl)
      rfl⟩

/-! ## Every run -/

/-- No delete call before a poll. -/
theorem not_isDelete_of_mem_historyAtPoll (hash : String) (i : Nat) (e : Event)
    (h : e ∈ historyAtPoll [] hash i) : e.isDelete = false := by
  have hz := countP_isDelete_historyAtPoll hash i
  rw [List.countP_eq_zero] at hz
  cases hd : e.isDelete with
  | false => rfl
  | true => exact absurd hd (hz e h)

/-- C16: for every behaviour of the remote side, `checkTrackerStatus` terminates (it is a
total function) and the events of its run satisfy: at most 50 tracker-status fetches, at
most 50 re-announce calls, at most one delete call; the number of re-announce calls is
the number of fetches or one less; a delete call is `DeleteTorrents([hash], false)`, is
the last event of the run, and occurs only after 50 attempts that each showed no working
tracker and re-announced with success (50 fetches, 50 re-announce calls); and a run in
which some poll showed a working tracker has no delete call. -/
theorem C16_every_run_is_bounded (R : Remote) (qb : Client) (hash : String) (tr : Trace) :
    (checkTrackerStatus R qb hash tr).2 = tr ++ convergenceEvents R qb hash tr ∧
      (convergenceEvents R qb hash tr).countP Event.isFetch ≤ 50 ∧
      (convergenceEvents R qb hash tr).countP Event.isReannounce ≤ 50 ∧
      (convergenceEvents R qb hash tr).countP Event.isDelete ≤ 1 ∧
      ((convergenceEvents R qb hash tr).countP Event.isReannounce =
          (convergenceEvents R qb hash tr).countP Event.isFetch ∨
        (convergenceEvents R qb hash tr).countP Event.isReannounce + 1 =
          (convergenceEvents R qb hash tr).countP Event.isFetch) ∧
      (∀ e ∈ convergenceEvents R qb hash tr, e.isDelete = true →
        e = .DeleteTorrents [hash] false ∧
          (convergenceEvents R qb hash tr).getLast? = some e ∧
          (∀ i, i < 50 → attemptRetries R qb hash tr i = true) ∧
          (convergenceEvents R qb hash tr).countP Event.isFetch = 50 ∧
          (convergenceEvents R qb hash tr).countP Event.isReannounce = 50) ∧
      ((∃ k, k < 50 ∧ (∀ i, i < k → attemptRetries R qb hash tr i = true) ∧
          pollConverges R qb hash tr k = true) →
        (convergenceEvents R qb hash tr).countP Event.isDelete = 0) := by
  obtain ⟨hsplit, hshape⟩ := convergenceEvents_shape R qb hash tr
  have f1 : List.countP Event.isFetch [Event.GetTorrentTrackers hash] = 1 := rfl
  have f2 : List.countP Event.isFetch
      [Event.GetTorrentTrackers hash, .ReAnnounceTorrents [hash]] = 1 := rfl
  have f3 : List.countP Event.isFetch
      [Event.Sleep (30 * Second), .DeleteTorrents [hash] false] = 0 := rfl
  have r1 : List.countP Event.isReannounce [Event.GetTorrentTrackers hash] = 0 := rfl
  have r2 : List.countP Event.isReannounce
      [Event.GetTorrentTrackers hash, .ReAnnounceTorrents [hash]] = 1 := rfl
  have r3 : List.countP Event.isReannounce
      [Event.Sleep (30 * Second), .DeleteTorrents [hash] false] = 0 := rfl
  have d1 : List.countP Event.isDelete [Event.GetTorrentTrackers hash] = 0 := rfl
  have d2 : List.countP Event.isDelete
      [Event.GetTorrentTrackers hash, .ReAnnounceTorrents [hash]] = 0 := rfl
  have d3 : List.countP Event.isDelete
      [Event.Sleep (30 * Second), .DeleteTorrents [hash] false] = 1 := rfl
  refine ⟨hsplit, ?_⟩
  rcases hshape with ⟨hall, h⟩ | ⟨k, hk, hall, hlast, h | ⟨_, h⟩⟩
  · have cf : (convergenceEvents R qb hash tr).countP Event.isFetch = 50 := by
      rw [h, List.countP_append, countP_isFetch_historyAtPoll, f3]
    have cr : (convergenceEvents R qb hash tr).countP Event.isReannounce = 50 := by
      rw [h, List.countP_append, countP_isReannounce_historyAtPoll, r3]
    have cd : (convergenceEvents R qb hash tr).countP Event.isDelete = 1 := by
      rw [h, List.countP_append, countP_isDelete_historyAtPoll, d3]
    refine ⟨by omega, by omega, by omega, Or.inl (by omega), ?_, ?_⟩
    · intro e he hd
      have hmem : e = .DeleteTorrents [hash] false := by
        rw [h] at he
        rcases List.mem_append.mp he with h1 | h1
        · rw [not_isDelete_of_mem_historyAtPoll hash 50 e h1] at hd
          exact absurd hd (by decide)
        · simp only [List.mem_cons, List.mem_singleton, List.not_mem_nil, or_false] at h1
          rcases h1 with h1 | h1
          · subst h1
            simp [Event.isDelete] at hd
          · exact h1
      refine ⟨hmem, ?_, hall, cf, cr⟩
      rw [h, hmem]
      simp
    · rintro ⟨j, hj, _, hconv⟩
      have := attemptRetries_of_pollConverges R qb hash tr j hconv
      rw [hall j hj] at this
      exact absurd this (by decide)
  · have cf : (convergenceEvents R qb hash tr).countP Event.isFetch = k + 1 := by
      rw [h, List.countP_append, countP_isFetch_historyAtPoll, f1]
    have cr : (convergenceEvents R qb hash tr).countP Event.isReannounce = k := by
      rw [h, List.countP_append, countP_isReannounce_historyAtPoll, r1]
      rfl
    have cd : (convergenceEvents R qb hash tr).countP Event.isDelete = 0 := by
      rw [h, List.countP_append, countP_isDelete_historyAtPoll, d1]
    refine ⟨by omega, by omega, by omega, Or.inr (by omega), ?_, fun _ => cd⟩
    intro e he hd
    exfalso
    rw [List.countP_eq_zero] at cd
    exact cd e he hd
  · have cf : (convergenceEvents R qb hash tr).countP Event.isFetch = k + 1 := by
      rw [h, List.countP_append, countP_isFetch_historyAtPoll, f2]
    have cr : (convergenceEvents R qb hash tr).countP Event.isReannounce = k + 1 := by
      rw [h, List.countP_append, countP_isReannounce_historyAtPoll, r2]
    have cd : (convergenceEvents R qb hash tr).countP Event.isDelete = 0 := by
      rw [h, List.countP_append, countP_isDelete_historyAtPoll, d2]
    refine ⟨by omega, by omega, by omega, Or.inl (by omega), ?_, fun _ => cd⟩
    intro e he hd
    exfalso
    rw [List.countP_eq_zero] at cd
    exact cd e he hd

/-- Witness of C16: the run that converges on the third poll has no delete call. -/
theorem C16_witness :
    (∃ k, k < 50 ∧ (∀ i, i < k → attemptRetries convergingRemote sampleHandle "abc" [] i = true) ∧
        pollConverges convergingRemote sampleHandle "abc" [] k = true) ∧
      (convergenceEvents convergingRemote sampleHandle "abc" []).countP Event.isDelete = 0 :=
  ⟨⟨2, by decide, fun i hi => by interval_cases i <;> rfl, rfl⟩,
    (C16_every_run_is_bounded convergingRemote sampleHandle "abc" []).2.2.2.2.2.2
      ⟨2, by decide, fun i hi => by interval_cases i <;> rfl, rfl⟩⟩

/-! ## The result of the convergence loop -/

/-- The loop never changes `announceOK`: when it ends by its condition, the flag has the
value it was entered with. -/
theorem checkTrackerStatusLoop_finished (R : Remote) (qb : Client) (hash : String) :
    ∀ (n attempts : Nat) (b : Bool) (tr : Trace), ReannounceMaxAttempts - attempts = n →
      ∀ (ok : Bool) (att : Nat) (t : Trace),
        checkTrackerStatusLoop R qb hash b attempts tr = (.finished ok att, t) →
        ok = b ∧ ReannounceMaxAttempts ≤ att := by
  intro n
  induction n with
  | zero =>
    intro attempts b tr hn ok att t hres
    have hge : ¬ attempts < ReannounceMaxAttempts := by omega
    rw [checkTrackerStatusLoop, if_neg hge] at hres
    simp only [Prod.mk.injEq, LoopExit.finished.injEq] at hres
    obtain ⟨⟨h1, h2⟩, _⟩ := hres
    exact ⟨h1.symm, by omega⟩
  | succ n ih =>
    intro attempts b tr hn ok att t hres
    have hlt : attempts < ReannounceMaxAttempts := by omega
    rw [checkTrackerStatusLoop, if_pos hlt] at hres
    split at hres
    · simp at hres
    · simp only [] at hres
      split at hres
      · simp at hres
      · split at hres
        · simp at hres
        · exact ih (attempts + 1) b _ (by omega) ok att t hres

/-- C17: `checkTrackerStatus` returns nil both when the job converged and when it was
abandoned and deleted with success, so its result does not tell the two outcomes apart
(the converged run has no delete call, the abandoned run has one), and `qbittorrent`
(submission succeeded, not paused, hash present) returns nil in both; moreover whenever
the loop ends by its condition the flag `announceOK` is false, so the delete after the
loop is unconditional: every such run goes on with the 30 s sleep and the call
`DeleteTorrents([hash], false)`, whose answer is the result, and in particular the run
in which all 50 attempts go on ends with that delete call whatever the remote answers. -/
theorem C17_converged_and_abandoned_both_return_nil (R : Remote) (qb : Client)
    (hash : String) (tr : Trace) :
    (∀ k, k < 50 → (∀ i, i < k → attemptRetries R qb hash tr i = true) →
        pollConverges R qb hash tr k = true → (checkTrackerStatus R qb hash tr).1 = none) ∧
      ((∀ i, i < 50 → attemptRetries R qb hash tr i = true) →
        R.DeleteTorrents (historyAtPoll tr hash 50 ++ [.Sleep (30 * Second)]) qb [hash] false =
          none →
        (checkTrackerStatus R qb hash tr).1 = none) ∧
      (∀ (s : service) (action : Action) (torrentFile : String) (tr0 : Trace),
        tr = tr0 ++ [.AddTorrentFromFile torrentFile (qbittorrentOptions action)] →
        action.Paused = false → hash ≠ "" →
        R.AddTorrentFromFile tr0 qb torrentFile (qbittorrentOptions action) = none →
        ((∃ k, k < 50 ∧ (∀ i, i < k → attemptRetries R qb hash tr i = true) ∧
            pollConverges R qb hash tr k = true) ∨
          ((∀ i, i < 50 → attemptRetries R qb hash tr i = true) ∧
            R.DeleteTorrents (historyAtPoll tr hash 50 ++ [.Sleep (30 * Second)]) qb [hash]
              false = none)) →
        (qbittorrent R s qb action torrentFile hash tr0).1 = none) ∧
      (∀ (ok : Bool) (att : Nat) (t : Trace),
        checkTrackerStatusLoop R qb hash false 0 (tr ++ [.Sleep (6 * Second)]) =
          (.finished ok att, t) → ok = false) ∧
      (∀ (ok : Bool) (att : Nat) (t : Trace),
        checkTrackerStatusLoop R qb hash false 0 (tr ++ [.Sleep (6 * Second)]) =
          (.finished ok att, t) →
        checkTrackerStatus R qb hash tr =
          (R.DeleteTorrents (t ++ [.Sleep (30 * Second)]) qb [hash] false,
            t ++ [.Sleep (30 * Second), .DeleteTorrents [hash] false])) ∧
      ((∀ i, i < 50 → attemptRetries R qb hash tr i = true) →
        (checkTrackerStatus R qb hash tr).2 =
            historyAtPoll tr hash 50 ++ [.Sleep (30 * Second), .DeleteTorrents [hash] false] ∧
          (convergenceEvents R qb hash tr).getLast? = some (.DeleteTorrents [hash] false) ∧
          (convergenceEvents R qb hash tr).countP Event.isDelete = 1) ∧
      (∀ k, k < 50 → (∀ i, i < k → attemptRetries R qb hash tr i = true) →
        pollConverges R qb hash tr k = true →
        (convergenceEvents R qb hash tr).countP Event.isDelete = 0) := by
  have hconv : ∀ k, k < 50 → (∀ i, i < k → attemptRetries R qb hash tr i = true) →
      pollConverges R qb hash tr k = true → (checkTrackerStatus R qb hash tr).1 = none := by
    intro k hk hall hc
    rw [(checkTrackerStatus_converged R qb hash tr k hk hall hc).1]
  have habandon : (∀ i, i < 50 → attemptRetries R qb hash tr i = true) →
      R.DeleteTorrents (historyAtPoll tr hash 50 ++ [.Sleep (30 * Second)]) qb [hash] false =
        none → (checkTrackerStatus R qb hash tr).1 = none := by
    intro hall hdel
    rw [checkTrackerStatus_abandoned R qb hash tr hall, hdel]
  refine ⟨hconv, habandon, ?_, ?_, ?_, ?_, ?_⟩
  · intro s action torrentFile tr0 htr hp hh hadd hout
    rw [qbittorrent_after_add R s qb action torrentFile hash tr0 hadd, if_pos ⟨hp, hh⟩, ← htr]
    rcases hout with ⟨k, hk, hall, hc⟩ | ⟨hall, hdel⟩
    · exact hconv k hk hall hc
    · exact habandon hall hdel
  · intro ok att t hres
    exact (checkTrackerStatusLoop_finished R qb hash _ 0 false _ rfl ok att t hres).1
  · intro ok att t hres
    have hok := (checkTrackerStatusLoop_finished R qb hash _ 0 false _ rfl ok att t hres).1
    subst hok
    unfold checkTrackerStatus
    simp only []
    rw [hres]
    simp only [Bool.not_false, if_true]
    cases R.DeleteTorrents (t ++ [.Sleep (30 * Second)]) qb [hash] false <;> simp
  · intro hall
    have hev := convergenceEvents_abandoned R qb hash tr hall
    refine ⟨by rw [checkTrackerStatus_abandoned R qb hash tr hall], ?_, ?_⟩
    · rw [hev]
      simp
    · have d3 : List.countP Event.isDelete
          [Event.Sleep (30 * Second), .DeleteTorrents [hash] false] = 1 := rfl
      rw [hev, List.countP_append, countP_isDelete_historyAtPoll, d3]
  · intro k hk hall hc
    have d1 : List.countP Event.isDelete [Event.GetTorrentTrackers hash] = 0 := rfl
    rw [(checkTrackerStatus_converged R qb hash tr k hk hall hc).2, List.countP_append,
      countP_isDelete_historyAtPoll, d1]

/-- Witness of C17: the run that converges on the third poll and the run abandoned after
50 polls both return nil; the abandoned run ends with the delete call. -/
theorem C17_witness :
    (checkTrackerStatus convergingRemote sampleHandle "abc" []).1 = none ∧
      (checkTrackerStatus (stuckRemote none) sampleHandle "abc" []).1 = none ∧
      (convergenceEvents (stuckRemote none) sampleHandle "abc" []).getLast? =
        some (.DeleteTorrents ["abc"] false) ∧
      (convergenceEvents (stuckRemote none) sampleHandle "abc" []).countP Event.isDelete = 1 :=
  ⟨(C17_converged_and_abandoned_both_return_nil convergingRemote sampleHandle "abc" []).1 2
      (by decide) (fun i hi => by interval_cases i <;> rfl) rfl,
    (C17_converged_and_abandoned_both_return_nil (stuckRemote none) sampleHandle "abc" []).2.1
      (fun _ _ => rfl) rfl,
    ((C17_converged_and_abandoned_both_return_nil (stuckRemote none) sampleHandle "abc"
      []).2.2.2.2.2.1 (fun _ _ => rfl)).2⟩

/-! ## The speed threshold -/

/-- For a non-negative rate, Go's truncating division by 1024 compares with the threshold
as the rate compares with 1024 times the threshold. -/
theorem tdiv_1024_lt_iff (r t : Int) (hr : 0 ≤ r) : r.tdiv 1024 < t ↔ r < 1024 * t := by
  rw [Int.tdiv_eq_ediv hr (by decide)]
  omega

/-- C18: in the speed override of the gate (rules enabled, action not exempt, count limit
`m > 0` reached, `IgnoreSlowTorrents` true, both fetches successful), for every
non-negative download rate `r` in bytes per second and every threshold `t`: the test
`r/1024 < t` holds iff `r < 1024*t`, so the gate admits iff `r < 1024*t`; the rate
`1024*t - 1` admits and the rate `1024*t` defers; and for every `t <= 0` the gate defers,
so the override never admits. -/
theorem C18_speed_threshold_in_bytes (R : Remote) (s : service) (action : Action)
    (tr : Trace) (client : DownloadClient) (activeDownloads : List Torrent)
    (info : TransferInfo)
    (hfind : s.clientSvc.FindByID action.ClientID = (some client, none))
    (hlogin : R.Login tr (handleOf client) = none)
    (hen : client.Settings.Rules.Enabled = true) (hex : action.IgnoreRules = false)
    (hm : client.Settings.Rules.MaxActiveDownloads > 0)
    (hslow : client.Settings.Rules.IgnoreSlowTorrents = true)
    (hfetch : R.GetTorrentsActiveDownloads (tr ++ [.Login]) (handleOf client) =
      .ok activeDownloads)
    (hn : (activeDownloads.length : Int) ≥ client.Settings.Rules.MaxActiveDownloads)
    (hinfo : R.GetTransferInfo (tr ++ [.Login, .GetTorrentsActiveDownloads])
      (handleOf client) = .ok info)
    (hr : 0 ≤ info.DlInfoSpeed) :
    (info.DlInfoSpeed.tdiv 1024 < client.Settings.Rules.DownloadSpeedThreshold ↔
        info.DlInfoSpeed < 1024 * client.Settings.Rules.DownloadSpeedThreshold) ∧
      ((qbittorrentCheckRulesCanDownload R s action tr).1 =
          (true, some (handleOf client), none) ↔
        info.DlInfoSpeed < 1024 * client.Settings.Rules.DownloadSpeedThreshold) ∧
      (info.DlInfoSpeed = 1024 * client.Settings.Rules.DownloadSpeedThreshold - 1 →
        (qbittorrentCheckRulesCanDownload R s action tr).1 =
          (true, some (handleOf client), none)) ∧
      (info.DlInfoSpeed = 1024 * client.Settings.Rules.DownloadSpeedThreshold →
        (qbittorrentCheckRulesCanDownload R s action tr).1 = (false, none, none)) ∧
      (client.Settings.Rules.DownloadSpeedThreshold ≤ 0 →
        (qbittorrentCheckRulesCanDownload R s action tr).1 = (false, none, none)) := by
  have hiff := tdiv_1024_lt_iff info.DlInfoSpeed client.Settings.Rules.DownloadSpeedThreshold hr
  have hres := gate_after_login R s action tr client hfind hlogin
  simp only [hen, hex, hfetch, Bool.not_false, Bool.and_self, if_true, hm, if_pos hn, hslow,
    hinfo] at hres
  have hadmit : info.DlInfoSpeed < 1024 * client.Settings.Rules.DownloadSpeedThreshold →
      (qbittorrentCheckRulesCanDownload R s action tr).1 =
        (true, some (handleOf client), none) := by
    intro hlt
    rw [hres, if_neg (not_le.mpr (hiff.mpr hlt))]
    rfl
  have hdefer : ¬ info.DlInfoSpeed < 1024 * client.Settings.Rules.DownloadSpeedThreshold →
      (qbittorrentCheckRulesCanDownload R s action tr).1 = (false, none, none) := by
    intro hge
    rw [hres, if_pos (not_lt.mp (fun h => hge (hiff.mp h)))]
    rfl
  refine ⟨hiff, ⟨?_, hadmit⟩, ?_, ?_, ?_⟩
  · intro hA
    by_contra hge
    rw [hdefer hge] at hA
    simp at hA
  · intro heq
    exact hadmit (by omega)
  · intro heq
    exact hdefer (by omega)
  · intro ht
    exact hdefer (by omega)

/-- Witness of C18: threshold 500 KB/s, rate 511999 = 1024 * 500 - 1 bytes per second:
Admit. -/
theorem C18_witness :
    ((0 : Int) ≤ 511999) ∧ ((511999 : Int) = 1024 * 500 - 1) ∧
      (qbittorrentCheckRulesCanDownload (gateRemote (.ok (sampleDownloads 3)) (.ok ⟨511999⟩))
          (sampleService ⟨true, 2, true, 500⟩) sampleAction []).1 =
        (true, some (handleOf (sampleClient ⟨true, 2, true, 500⟩)), none) :=
  ⟨by decide, by decide,
    (C18_speed_threshold_in_bytes (gateRemote (.ok (sampleDownloads 3)) (.ok ⟨511999⟩))
      (sampleService ⟨true, 2, true, 500⟩) sampleAction [] (sampleClient ⟨true, 2, true, 500⟩)
      (sampleDownloads 3) ⟨511999⟩ rfl rfl rfl rfl (by decide) rfl rfl (by decide) rfl
      (by decide)).2.2.1 (by decide)⟩

/-! ## The results of the gate -/

/-- The gate when the lookup reports an error (lines 67-70). -/
theorem gate_lookup_error (R : Remote) (s : service) (action : Action) (tr : Trace)
    (c : Option DownloadClient) (err : Error)
    (hfind : s.clientSvc.FindByID action.ClientID = (c, some err)) :
    qbittorrentCheckRulesCanDownload R s action tr = ((false, none, some err), tr) := by
  unfold qbittorrentCheckRulesCanDownload
  simp only [hfind]

/-- The gate when the lookup finds no client and reports no error (lines 72-74). -/
theorem gate_no_client (R : Remote) (s : service) (action : Action) (tr : Trace)
    (hfind : s.clientSvc.FindByID action.ClientID = (none, none)) :
    qbittorrentCheckRulesCanDownload R s action tr = ((false, none, none), tr) := by
  unfold qbittorrentCheckRulesCanDownload
  simp only [hfind]

/-- The gate when the login fails (lines 87-91). -/
theorem gate_login_error (R : Remote) (s : service) (action : Action) (tr : Trace)
    (client : DownloadClient) (err : Error)
    (hfind : s.clientSvc.FindByID action.ClientID = (some client, none))
    (hlogin : R.Login tr (handleOf client) = some err) :
    qbittorrentCheckRulesCanDownload R s action tr =
      ((false, none, some err), tr ++ [.Login]) := by
  unfold qbittorrentCheckRulesCanDownload
  simp only [hfind]
  have hl : R.Login tr
      { NewClient
          { Hostname := client.Host
            Port := toUint client.Port
            Username := client.Username
            Password := client.Password
            SSL := client.SSL } with Name := client.Name } = some err := hlogin
  simp only [hl]

/-- After a successful login the gate decides Admit with the logged-in handle, Defer, or
an error. -/
theorem gate_after_login_outcome (R : Remote) (s : service) (action : Action) (tr : Trace)
    (client : DownloadClient)
    (hfind : s.clientSvc.FindByID action.ClientID = (some client, none))
    (hlogin : R.Login tr (handleOf client) = none) :
    (qbittorrentCheckRulesCanDownload R s action tr).1 = Admit (handleOf client) ∨
      (qbittorrentCheckRulesCanDownload R s action tr).1 = Defer ∨
      ∃ e, (qbittorrentCheckRulesCanDownload R s action tr).1 = Fail e := by
  rw [gate_after_login R s action tr client hfind hlogin]
  split
  · split
    · exact Or.inr (Or.inr ⟨_, rfl⟩)
    · split
      · split
        · split
          · split
            · exact Or.inr (Or.inr ⟨_, rfl⟩)
            · split
              · exact Or.inr (Or.inl rfl)
              · exact Or.inl rfl
          · exact Or.inr (Or.inl rfl)
        · exact Or.inl rfl
      · exact Or.inl rfl
  · exact Or.inl rfl

/-- C19: every result `(canDownload, client, err)` of the gate satisfies: `canDownload`
true implies `err` nil and `client` the handle that was logged in (so not nil);
`canDownload` false implies `client` nil; `err` not nil implies `canDownload` false.  A
lookup that returns no client and no error yields `(false, nil, nil)`, the result of a
Defer decision. -/
theorem C19_result_shape (R : Remote) (s : service) (action : Action) (tr : Trace) :
    ((qbittorrentCheckRulesCanDownload R s action tr).1.1 = true →
        (qbittorrentCheckRulesCanDownload R s action tr).1.2.2 = none ∧
          ∃ client, s.clientSvc.FindByID action.ClientID = (some client, none) ∧
            R.Login tr (handleOf client) = none ∧
            (qbittorrentCheckRulesCanDownload R s action tr).1.2.1 =
              some (handleOf client)) ∧
      ((qbittorrentCheckRulesCanDownload R s action tr).1.1 = false →
        (qbittorrentCheckRulesCanDownload R s action tr).1.2.1 = none) ∧
      ((qbittorrentCheckRulesCanDownload R s action tr).1.2.2 ≠ none →
        (qbittorrentCheckRulesCanDownload R s action tr).1.1 = false) ∧
      (s.clientSvc.FindByID action.ClientID = (none, none) →
        qbittorrentCheckRulesCanDownload R s action tr = (Defer, tr)) := by
  refine ⟨?_, ?_, ?_, gate_no_client R s action tr⟩
  all_goals
    rcases hfind : s.clientSvc.FindByID action.ClientID with ⟨c, e⟩
    cases e with
    | some err =>
      rw [gate_lookup_error R s action tr c err hfind]
      simp
    | none =>
      cases c with
      | none =>
        rw [gate_no_client R s action tr hfind]
        simp
      | some client =>
        cases hlogin : R.Login tr (handleOf client) with
        | some err =>
          rw [gate_login_error R s action tr client err hfind hlogin]
          simp
        | none =>
          rcases gate_after_login_outcome R s action tr client hfind hlogin with
            h | h | ⟨e, h⟩ <;> rw [h] <;> simp [Admit, Defer, Fail, hlogin]

/-- Witness of C19: the lookup finds no client and reports no error. -/
theorem C19_witness :
    emptyService.clientSvc.FindByID sampleAction.ClientID = (none, none) ∧
      qbittorrentCheckRulesCanDownload (gateRemote (.ok []) (.ok ⟨0⟩)) emptyService
        sampleAction [] = ((false, none, none), []) :=
  ⟨rfl, (C19_result_shape (gateRemote (.ok []) (.ok ⟨0⟩)) emptyService sampleAction []).2.2.2
    rfl⟩

/-! ## The tracker scan and the plain scan -/

/-- The scan with the skip of disabled entries computes the plain scan. -/
theorem findTrackerStatus_eq_plainScan (slice : List TorrentTracker) :
    findTrackerStatus slice = plainScan slice := by
  induction slice with
  | nil => rfl
  | cons item rest ih =>
    unfold findTrackerStatus plainScan
    rw [List.any_cons]
    by_cases hd : item.Status = TrackerStatusDisabled
    · have hok : ¬ item.Status = TrackerStatusOK := by
        rw [hd]
        decide
      rw [if_pos hd, ih, decide_eq_false hok, Bool.false_or]
      rfl
    · rw [if_neg hd]
      by_cases hok : item.Status = TrackerStatusOK
      · rw [if_pos hok, decide_eq_true hok, Bool.true_or]
      · rw [if_neg hok, ih, decide_eq_false hok, Bool.false_or]
        rfl

/-- C20: on every list `findTrackerStatus` equals the plain scan "some entry has status
`TrackerStatusOK`", written without the skip of disabled entries (the status codes of
disabled and working differ); its result is the same on every permutation of the list;
and a true result stays true when further entries are appended. -/
theorem C20_scan_equals_plain_scan (slice : List TorrentTracker) :
    findTrackerStatus slice = plainScan slice ∧
      TrackerStatusDisabled ≠ TrackerStatusOK ∧
      (∀ other : List TorrentTracker, slice.Perm other →
        findTrackerStatus other = findTrackerStatus slice) ∧
      (∀ more : List TorrentTracker, findTrackerStatus slice = true →
        findTrackerStatus (slice ++ more) = true) := by
  refine ⟨findTrackerStatus_eq_plainScan slice, by decide, ?_, ?_⟩
  · intro other hperm
    rw [Bool.eq_iff_iff, findTrackerStatus_iff, findTrackerStatus_iff]
    constructor
    · rintro ⟨item, hmem, h⟩
      exact ⟨item, hperm.mem_iff.mpr hmem, h⟩
    · rintro ⟨item, hmem, h⟩
      exact ⟨item, hperm.mem_iff.mp hmem, h⟩
  · intro more htrue
    obtain ⟨item, hmem, h⟩ := (findTrackerStatus_iff slice).mp htrue
    exact (findTrackerStatus_iff (slice ++ more)).mpr
      ⟨item, List.mem_append_left more hmem, h⟩

/-- Witness of C20: a working entry followed by a disabled one, and the two swapped. -/
theorem C20_witness :
    findTrackerStatus [⟨TrackerStatusDisabled⟩, ⟨TrackerStatusOK⟩] =
      findTrackerStatus [⟨TrackerStatusOK⟩, ⟨TrackerStatusDisabled⟩] :=
  (C20_scan_equals_plain_scan [⟨TrackerStatusOK⟩, ⟨TrackerStatusDisabled⟩]).2.2.1
    [⟨TrackerStatusDisabled⟩, ⟨TrackerStatusOK⟩] (List.Perm.swap _ _ [])

end Autobrr
